import Mathlib

/-!
Verification of the sitescope-backend crawl core.

This file gives a shallow embedding, in Lean 4, of the crawl-orchestration
core of the repository:

* `src/services/crawlProcessor.js` — URL normalization (`normalizeUrl`),
  URL level / post-type classification and the sampled-crawl gate
  (`getUrlLevel`, `detectPostType`, `shouldSkipForSampledCrawl`),
  the per-page crawl step (`handlePageCrawl`, `shouldSkipPage`,
  `enqueueInternalLinks`, `isValidInternalUrl`), job polling
  (`processPendingJobs`, `findPendingJobs`) and the finalize phase
  (`finalizeCrawl`, `calculateLinkMetrics`, `calculateLinkScore`).
* `src/services/robotsCrawler.js` — `fetchRobotsTxt`, `parseRobotsTxt`,
  `isPathAllowed`, `pathMatches`.
* `src/services/sitemapCrawler.js` — `discoverAndCrawlSitemaps`,
  `processChildSitemaps`, `fetchAndParseSitemap`.

Modelling conventions:

* JavaScript strings are Lean `String`s; most parsing is performed on the
  underlying `List Char`.
* The WHATWG `new URL(...)` constructor is modelled by `parseURLChars`,
  a parser for `scheme://host/path?query#fragment` shaped URLs.  Inputs
  that do not have this shape parse to `none`, which models the
  constructor throwing.  Percent-encoding, dot-segment resolution,
  default-port elision and userinfo splitting are not modelled; the
  claims under verification do not depend on them.
* Network I/O is modelled by passing the outcome of each fetch as an
  explicit argument (an oracle); a thrown JavaScript exception is
  modelled with `Except`.
* JavaScript numbers are modelled as `ℝ` where the code does real
  arithmetic (`Math.log`), and as `Nat` where the code counts records.
* `Map` objects and plain objects used as dictionaries are modelled as
  association lists (`List (String × _)`), first binding wins.
-/

namespace SiteScope

/-! ## Character-list helpers -/

/-- `takeUntil p l` splits `l` at the first element satisfying `p`:
the first component is the longest prefix on which `p` is false, the
second is the remainder (starting with the first `p`-element, if any). -/
def takeUntil (p : Char → Bool) (l : List Char) : List Char × List Char :=
  (l.takeWhile (fun c => !p c), l.dropWhile (fun c => !p c))

theorem takeUntil_append (p : Char → Bool) (l₁ : List Char) (c : Char) (l₂ : List Char)
    (h : ∀ a ∈ l₁, p a = false) (hc : p c = true) :
    takeUntil p (l₁ ++ c :: l₂) = (l₁, c :: l₂) := by
  unfold takeUntil
  induction l₁ with
  | nil => simp [List.takeWhile, List.dropWhile, hc]
  | cons a t ih =>
    have ha : p a = false := h a (by simp)
    have ih' := ih (fun x hx => h x (by simp [hx]))
    simp only [List.cons_append, List.takeWhile_cons, List.dropWhile_cons, ha] at *
    simp only [Bool.not_false, if_true, Prod.mk.injEq] at ih' ⊢
    exact ⟨by rw [ih'.1], ih'.2⟩

theorem takeUntil_all (p : Char → Bool) (l : List Char)
    (h : ∀ a ∈ l, p a = false) :
    takeUntil p l = (l, []) := by
  unfold takeUntil
  induction l with
  | nil => simp
  | cons a t ih =>
    have ha : p a = false := h a (by simp)
    have ih' := ih (fun x hx => h x (by simp [hx]))
    simp only [List.takeWhile_cons, List.dropWhile_cons, ha] at *
    simp only [Bool.not_false, if_true, Prod.mk.injEq] at ih' ⊢
    exact ⟨by rw [ih'.1], ih'.2⟩

/-! ## ASCII character facts (for `toLowerCase` reasoning) -/

theorem char_toNat_ofNat {n : Nat} (h : n < 55296) : (Char.ofNat n).toNat = n := by
  unfold Char.ofNat
  rw [dif_pos (Or.inl h)]
  rfl

theorem char_toNat_inj (a b : Char) (h : a.toNat = b.toNat) : a = b := by
  apply Char.eq_of_val_eq
  exact UInt32.toNat.inj h

/-- `Char.toLower` either shifts an ASCII upper-case letter down by 32 or
leaves the character unchanged. -/
theorem toLower_cases (c : Char) :
    (65 ≤ c.toNat ∧ c.toNat ≤ 90 ∧ (Char.toLower c).toNat = c.toNat + 32) ∨
    (¬(65 ≤ c.toNat ∧ c.toNat ≤ 90) ∧ Char.toLower c = c) := by
  unfold Char.toLower
  by_cases h : c.toNat ≥ 65 ∧ c.toNat ≤ 90
  · rw [if_pos h]
    exact Or.inl ⟨h.1, h.2, char_toNat_ofNat (by omega)⟩
  · rw [if_neg h]
    exact Or.inr ⟨h, rfl⟩

theorem toLower_idem (c : Char) : Char.toLower (Char.toLower c) = Char.toLower c := by
  rcases toLower_cases c with ⟨hb1, hb2, h⟩ | ⟨_, h⟩
  · rcases toLower_cases (Char.toLower c) with ⟨h1, h2, _⟩ | ⟨_, h'⟩
    · exfalso; omega
    · exact h'
  · rw [h, h]

/-- For a target character whose code is below 65 (all URL delimiters),
`toLower c = d ↔ c = d`. -/
theorem toLower_eq_low_iff (c d : Char) (hd : d.toNat < 65) :
    Char.toLower c = d ↔ c = d := by
  constructor
  · intro he
    rcases toLower_cases c with ⟨hb1, hb2, h⟩ | ⟨_, h⟩
    · exfalso
      have : (Char.toLower c).toNat = d.toNat := by rw [he]
      omega
    · rw [← h]; exact he
  · intro he
    subst he
    rcases toLower_cases c with ⟨h1, _, _⟩ | ⟨_, h⟩
    · omega
    · exact h

/-! ## URL model (`new URL`, `url.toString()`) -/

/-- Component record of a parsed URL, mirroring the WHATWG `URL` object
fields used by the source: `protocol` (here `scheme`, without the
trailing colon), `host` (hostname and optional port, as written),
`pathname`, `search` (as `query`, without the `?`; `none` models an
absent query) and `hash` (as `frag`, without the `#`). -/
@[ext]
structure URLRec where
  scheme : List Char
  host : List Char
  pathname : List Char
  query : Option (List Char)
  frag : Option (List Char)
  deriving DecidableEq, Repr

/-- ASCII letter (the only scheme heads the WHATWG grammar accepts). -/
def isAsciiLetter (c : Char) : Bool :=
  decide ((65 ≤ c.toNat ∧ c.toNat ≤ 90) ∨ (97 ≤ c.toNat ∧ c.toNat ≤ 122))

/-- Characters allowed in a scheme after the first (letter) character:
letters, digits, `+`, `-`, `.`. -/
def isSchemeChar (c : Char) : Bool :=
  isAsciiLetter c ||
    decide ((48 ≤ c.toNat ∧ c.toNat ≤ 57) ∨ c.toNat = 43 ∨ c.toNat = 45 ∨ c.toNat = 46)

/-- Query/fragment tail of the URL grammar.  `rest4` is what remains after
the path; by construction its head, if any, is `?` or `#`. -/
def parseQueryFrag (scheme host pathname : List Char) (rest4 : List Char) : Option URLRec :=
  match rest4 with
  | [] => some ⟨scheme, host, pathname, none, none⟩
  | c :: rest5 =>
    if c == '?' then
      let (q, rest6) := takeUntil (fun x => x == '#') rest5
      match rest6 with
      | [] => some ⟨scheme, host, pathname, some q, none⟩
      | _ :: f => some ⟨scheme, host, pathname, some q, some f⟩
    else if c == '#' then
      some ⟨scheme, host, pathname, none, some rest5⟩
    else none

/-- Authority, path, query and fragment of the URL grammar; `rest2` is what
follows the `scheme://` prefix. -/
def parseAfterScheme (c0 : Char) (cs rest2 : List Char) : Option URLRec :=
  let (hostRaw, rest3) := takeUntil (fun c => c == '/' || c == '?' || c == '#') rest2
  if hostRaw.isEmpty then none
  else
    let (path, rest4) := takeUntil (fun c => c == '?' || c == '#') rest3
    let pathname := if path.isEmpty then ['/'] else path
    parseQueryFrag ((c0 :: cs).map Char.toLower) (hostRaw.map Char.toLower) pathname rest4

/-- `new URL(s)` for absolute `scheme://...` URLs.  Returns `none` when
the constructor would throw a `TypeError`. -/
def parseURLChars (s : List Char) : Option URLRec :=
  let (sch, rest) := takeUntil (fun c => c == ':') s
  if rest.take 3 = [':', '/', '/'] then
    match sch with
    | [] => none
    | c0 :: cs =>
      if isAsciiLetter c0 && cs.all isSchemeChar then
        parseAfterScheme c0 cs (rest.drop 3)
      else none
  else none

/-- Serialized query part (`?`-prefixed when present). -/
def qPart : Option (List Char) → List Char
  | some q => '?' :: q
  | none => []

/-- Serialized fragment part (`#`-prefixed when present). -/
def fPart : Option (List Char) → List Char
  | some f => '#' :: f
  | none => []

/-- `url.toString()` — serialization of a `URLRec`. -/
def URLRec.toChars (u : URLRec) : List Char :=
  u.scheme ++ [':', '/', '/'] ++ u.host ++ u.pathname ++ qPart u.query ++ fPart u.frag

def parseURL (s : String) : Option URLRec := parseURLChars s.data

/-! ## `normalizeUrl` (crawlProcessor.js lines 915-933) -/

/-- The trailing-slash removal step of `normalizeUrl`:
`if (urlObj.pathname !== '/' && urlObj.pathname.endsWith('/'))
   urlObj.pathname = urlObj.pathname.slice(0, -1)`. -/
def stripTrailingSlash (p : List Char) : List Char :=
  if p ≠ ['/'] ∧ p.getLast? = some '/' then p.dropLast else p

/-- The mutations `normalizeUrl` performs on the parsed URL object:
clear the fragment, clear the query iff `ignoreUrlParameters`, strip one
trailing slash off a non-root path. -/
def normRec (ignoreUrlParameters : Bool) (u : URLRec) : URLRec :=
  let u1 : URLRec := { u with frag := none }
  let u2 : URLRec := if ignoreUrlParameters then { u1 with query := none } else u1
  { u2 with pathname := stripTrailingSlash u2.pathname }

/-- `normalizeUrl(url, ignoreUrlParameters)`: parse, mutate, serialize;
return the argument unchanged when `new URL` throws. -/
def normalizeUrl (url : String) (ignoreUrlParameters : Bool := false) : String :=
  match parseURLChars url.data with
  | none => url
  | some u => String.mk (URLRec.toChars (normRec ignoreUrlParameters u))

/-! ## Round-trip: serializing a parsed URL re-parses to the same record -/

def lowerStable (l : List Char) : Prop := l.map Char.toLower = l

/-- Invariants of every record produced by `parseURLChars`. -/
structure URLWF (r : URLRec) : Prop where
  scheme_head : ∃ c cs, r.scheme = c :: cs ∧ isAsciiLetter c = true ∧
    (∀ x ∈ cs, isSchemeChar x = true)
  scheme_lower : lowerStable r.scheme
  host_ne : r.host ≠ []
  host_lower : lowerStable r.host
  host_nostop : ∀ c ∈ r.host, ¬(c = '/' ∨ c = '?' ∨ c = '#')
  path_head : ∃ pt, r.pathname = '/' :: pt
  path_nostop : ∀ c ∈ r.pathname, ¬(c = '?' ∨ c = '#')
  query_nohash : ∀ q, r.query = some q → ∀ c ∈ q, ¬(c = '#')

theorem takeUntil_spec (p : Char → Bool) (l a b : List Char)
    (h : takeUntil p l = (a, b)) :
    l = a ++ b ∧ (∀ c ∈ a, p c = false) ∧ (∀ c, b.head? = some c → p c = true) := by
  induction l generalizing a b with
  | nil =>
    unfold takeUntil at h
    simp at h
    simp [h.1, h.2]
  | cons x t ih =>
    unfold takeUntil at h
    by_cases hx : p x
    · simp only [List.takeWhile_cons, List.dropWhile_cons, hx, Bool.not_true, if_false,
        Prod.mk.injEq] at h
      obtain ⟨ha, hb⟩ := h
      subst ha
      refine ⟨by simp [← hb], by simp, ?_⟩
      intro c hc
      rw [← hb] at hc
      simp at hc
      subst hc
      exact hx
    · simp only [List.takeWhile_cons, List.dropWhile_cons, hx, Bool.not_false, if_true,
        Prod.mk.injEq] at h
      obtain ⟨ha, hb⟩ := h
      subst ha
      obtain ⟨hl, hA, hB⟩ := ih (t.takeWhile fun c => !p c) (t.dropWhile fun c => !p c) rfl
      rw [← hb]
      refine ⟨?_, ?_, hB⟩
      · simp only [List.cons_append]
        exact congrArg (List.cons x) hl
      · intro c hc
        rcases List.mem_cons.mp hc with hc | hc
        · subst hc
          simp at hx
          exact hx
        · exact hA c hc

theorem isAsciiLetter_toLower (c : Char) (h : isAsciiLetter c = true) :
    isAsciiLetter (Char.toLower c) = true := by
  simp only [isAsciiLetter, decide_eq_true_eq] at *
  rcases toLower_cases c with ⟨_, _, he⟩ | ⟨_, he⟩
  · omega
  · rw [he]; exact h

theorem isSchemeChar_toLower (c : Char) (h : isSchemeChar c = true) :
    isSchemeChar (Char.toLower c) = true := by
  simp only [isSchemeChar, isAsciiLetter, Bool.or_eq_true, decide_eq_true_eq] at *
  rcases toLower_cases c with ⟨_, _, he⟩ | ⟨_, he⟩
  · left; omega
  · rw [he]; exact h

theorem lowerStable_map (l : List Char) : lowerStable (l.map Char.toLower) := by
  unfold lowerStable
  rw [List.map_map]
  exact List.map_congr_left (fun a _ => toLower_idem a)

theorem toLower_ne_delim (c d : Char) (hd : d.toNat < 65) (h : ¬ c = d) :
    ¬ Char.toLower c = d := fun he => h ((toLower_eq_low_iff c d hd).mp he)

/-- Auxiliary step for `parse_wf`: the invariants hold for a record whose
components passed the parser's checks, whatever query/fragment follow. -/
theorem URLWF_mk (c0 : Char) (cs hostRaw path : List Char)
    (hif : (isAsciiLetter c0 && cs.all isSchemeChar) = true)
    (hostne : hostRaw.isEmpty = false)
    (hostok : ∀ c ∈ hostRaw, (c == '/' || c == '?' || c == '#') = false)
    (pathok : ∀ c ∈ path, (c == '?' || c == '#') = false)
    (pathhead : ∀ c, path.head? = some c → (c == '/' || c == '?' || c == '#') = true)
    (q f : Option (List Char))
    (hq : ∀ l, q = some l → ∀ c ∈ l, ¬ c = '#') :
    URLWF ⟨(c0 :: cs).map Char.toLower, hostRaw.map Char.toLower,
      (if path.isEmpty then ['/'] else path), q, f⟩ := by
  simp only [Bool.and_eq_true, List.all_eq_true] at hif
  constructor
  · refine ⟨Char.toLower c0, cs.map Char.toLower, by simp, isAsciiLetter_toLower c0 hif.1, ?_⟩
    intro x hx
    obtain ⟨y, hy, rfl⟩ := List.mem_map.mp hx
    exact isSchemeChar_toLower y (hif.2 y hy)
  · exact lowerStable_map _
  · simp only [ne_eq, List.map_eq_nil_iff]
    intro hcon
    rw [hcon] at hostne
    simp at hostne
  · exact lowerStable_map _
  · intro c hc
    obtain ⟨y, hy, rfl⟩ := List.mem_map.mp hc
    have := hostok y hy
    simp only [Bool.or_eq_false_iff, beq_eq_false_iff_ne, ne_eq] at this
    rintro (hcon | hcon | hcon)
    · exact toLower_ne_delim y '/' (by decide) this.1.1 hcon
    · exact toLower_ne_delim y '?' (by decide) this.1.2 hcon
    · exact toLower_ne_delim y '#' (by decide) this.2 hcon
  · by_cases hp : path.isEmpty
    · rw [if_pos hp]
      exact ⟨[], rfl⟩
    · rw [if_neg hp]
      rcases path with _ | ⟨p0, pt⟩
      · simp at hp
      · have h1 := pathhead p0 rfl
        have h2 := pathok p0 (by simp)
        simp only [Bool.or_eq_false_iff, beq_eq_false_iff_ne, ne_eq] at h2
        simp only [Bool.or_eq_true, beq_iff_eq] at h1
        rcases h1 with (h1 | h1) | h1
        · exact ⟨pt, by rw [h1]⟩
        · exact absurd h1 h2.1
        · exact absurd h1 h2.2
  · intro c hc
    by_cases hp : path.isEmpty
    · rw [if_pos hp] at hc
      simp at hc
      subst hc
      decide
    · rw [if_neg hp] at hc
      have := pathok c hc
      simp only [Bool.or_eq_false_iff, beq_eq_false_iff_ne, ne_eq] at this
      rintro (hcon | hcon)
      · exact this.1 hcon
      · exact this.2 hcon
  · exact hq

theorem parseQueryFrag_wf (scheme host pathname rest4 : List Char) (r : URLRec)
    (hbase : ∀ (q : Option (List Char)) (f : Option (List Char)),
      (∀ l, q = some l → ∀ c ∈ l, ¬ c = '#') → URLWF ⟨scheme, host, pathname, q, f⟩)
    (h : parseQueryFrag scheme host pathname rest4 = some r) : URLWF r := by
  unfold parseQueryFrag at h
  rcases rest4 with _ | ⟨c, rest5⟩
  · injection h with h
    subst h
    exact hbase none none (by simp)
  · dsimp only at h
    by_cases hc : (c == '?') = true
    · rw [if_pos hc] at h
      rcases hTU : takeUntil (fun x => x == '#') rest5 with ⟨qs, rest6⟩
      rw [hTU] at h
      dsimp only at h
      obtain ⟨-, hA, -⟩ := takeUntil_spec _ rest5 _ _ hTU
      have hq : ∀ l, (some qs : Option (List Char)) = some l → ∀ x ∈ l, ¬ x = '#' := by
        intro l hl x hx
        injection hl with hl
        subst hl
        have := hA x hx
        simp only [beq_eq_false_iff_ne, ne_eq] at this
        exact this
      rcases rest6 with _ | ⟨c6, f⟩
      · injection h with h
        subst h
        exact hbase (some qs) none hq
      · injection h with h
        subst h
        exact hbase (some qs) (some f) hq
    · rw [if_neg hc] at h
      by_cases hc2 : (c == '#') = true
      · rw [if_pos hc2] at h
        injection h with h
        subst h
        exact hbase none (some rest5) (by simp)
      · rw [if_neg hc2] at h
        exact absurd h (by simp)

theorem parseAfterScheme_wf (c0 : Char) (cs rest2 : List Char) (r : URLRec)
    (hif : (isAsciiLetter c0 && cs.all isSchemeChar) = true)
    (h : parseAfterScheme c0 cs rest2 = some r) : URLWF r := by
  unfold parseAfterScheme at h
  rcases hTU2 : takeUntil (fun c => c == '/' || c == '?' || c == '#') rest2 with ⟨hostRaw, rest3⟩
  rw [hTU2] at h
  dsimp only at h
  obtain ⟨hs2, hA2, hB2⟩ := takeUntil_spec _ rest2 _ _ hTU2
  by_cases hemp : hostRaw.isEmpty = true
  · rw [if_pos hemp] at h
    exact absurd h (by simp)
  · rw [if_neg hemp] at h
    rcases hTU3 : takeUntil (fun c => c == '?' || c == '#') rest3 with ⟨path, rest4⟩
    rw [hTU3] at h
    dsimp only at h
    obtain ⟨hs3, hA3, hB3⟩ := takeUntil_spec _ rest3 _ _ hTU3
    have pathhead : ∀ c, path.head? = some c → (c == '/' || c == '?' || c == '#') = true := by
      intro c hc
      apply hB2
      rw [hs3]
      rcases path with _ | ⟨p0, pt⟩
      · simp at hc
      · simp at hc ⊢
        exact hc
    have hemp' : hostRaw.isEmpty = false := by
      simp only [Bool.not_eq_true] at hemp
      exact hemp
    exact parseQueryFrag_wf _ _ _ _ r
      (fun q f hq => URLWF_mk c0 cs hostRaw path hif hemp' hA2 hA3 pathhead q f hq) h

/-- Everything `parseURLChars` returns satisfies the `URLWF` invariants. -/
theorem parse_wf (s : List Char) (r : URLRec) (h : parseURLChars s = some r) : URLWF r := by
  unfold parseURLChars at h
  rcases hTU1 : takeUntil (fun c => c == ':') s with ⟨sch, rest⟩
  rw [hTU1] at h
  dsimp only at h
  by_cases htake : rest.take 3 = [':', '/', '/']
  · rw [if_pos htake] at h
    rcases sch with _ | ⟨c0, cs⟩
    · exact absurd h (by simp)
    · dsimp only at h
      by_cases hif : (isAsciiLetter c0 && cs.all isSchemeChar) = true
      · rw [if_pos hif] at h
        exact parseAfterScheme_wf c0 cs (rest.drop 3) r hif h
      · rw [if_neg hif] at h
        exact absurd h (by simp)
  · rw [if_neg htake] at h
    exact absurd h (by simp)

theorem isAsciiLetter_isSchemeChar (c : Char) (h : isAsciiLetter c = true) :
    isSchemeChar c = true := by
  simp only [isSchemeChar, Bool.or_eq_true]
  exact Or.inl h

theorem isSchemeChar_ne_colon (c : Char) (h : isSchemeChar c = true) : (c == ':') = false := by
  simp only [isSchemeChar, isAsciiLetter, Bool.or_eq_true, decide_eq_true_eq] at h
  simp only [beq_eq_false_iff_ne, ne_eq]
  intro he
  subst he
  have h58 : (':' : Char).toNat = 58 := rfl
  omega

theorem stop3_false (a : Char) (h : ¬(a = '/' ∨ a = '?' ∨ a = '#')) :
    (a == '/' || a == '?' || a == '#') = false := by
  push_neg at h
  simp only [Bool.or_eq_false_iff, beq_eq_false_iff_ne, ne_eq]
  exact ⟨⟨h.1, h.2.1⟩, h.2.2⟩

theorem stop2_false (a : Char) (h : ¬(a = '?' ∨ a = '#')) :
    (a == '?' || a == '#') = false := by
  push_neg at h
  simp only [Bool.or_eq_false_iff, beq_eq_false_iff_ne, ne_eq]
  exact ⟨h.1, h.2⟩

/-- Round trip: serializing a well-formed URL record and re-parsing it
recovers the record.  This is what makes `normalizeUrl` stable under
re-normalization. -/
theorem toChars_parse (r : URLRec) (hwf : URLWF r) : parseURLChars r.toChars = some r := by
  obtain ⟨c0, cs, hsch, hletter, hschemechars⟩ := hwf.scheme_head
  obtain ⟨pt, hpath⟩ := hwf.path_head
  have hschOK : ∀ a ∈ r.scheme, isSchemeChar a = true := by
    rw [hsch]
    intro a ha
    rcases List.mem_cons.mp ha with rfl | ha
    · exact isAsciiLetter_isSchemeChar _ hletter
    · exact hschemechars a ha
  have hcolon : ∀ a ∈ r.scheme, (a == ':') = false :=
    fun a ha => isSchemeChar_ne_colon a (hschOK a ha)
  have hlow : List.map Char.toLower r.scheme = r.scheme := hwf.scheme_lower
  have hlowh : List.map Char.toLower r.host = r.host := hwf.host_lower
  have hostStop : ∀ a ∈ r.host, (a == '/' || a == '?' || a == '#') = false :=
    fun a ha => stop3_false a (hwf.host_nostop a ha)
  have pathStop : ∀ a ∈ r.pathname, (a == '?' || a == '#') = false :=
    fun a ha => stop2_false a (hwf.path_nostop a ha)
  have htail : r.toChars = r.scheme ++ ':' :: '/' :: '/' ::
      (r.host ++ r.pathname ++ qPart r.query ++ fPart r.frag) := by
    unfold URLRec.toChars
    simp [List.append_assoc]
  unfold parseURLChars
  rw [htail, takeUntil_append _ _ _ _ hcolon (by decide)]
  dsimp only
  rw [if_pos (by simp)]
  rw [hsch]
  dsimp only
  rw [if_pos (by
    simp only [Bool.and_eq_true, List.all_eq_true]
    exact ⟨hletter, fun x hx => hschemechars x hx⟩)]
  show parseAfterScheme c0 cs (r.host ++ r.pathname ++ qPart r.query ++ fPart r.frag) = some r
  unfold parseAfterScheme
  have harr : r.host ++ r.pathname ++ qPart r.query ++ fPart r.frag
      = r.host ++ '/' :: (pt ++ qPart r.query ++ fPart r.frag) := by
    rw [hpath]
    simp
  rw [harr, takeUntil_append _ _ _ _ hostStop (by decide)]
  dsimp only
  rw [if_neg (by
    simp only [List.isEmpty_iff]
    exact hwf.host_ne)]
  have harr2 : ('/' :: (pt ++ qPart r.query ++ fPart r.frag))
      = r.pathname ++ (qPart r.query ++ fPart r.frag) := by
    rw [hpath]
    simp
  rw [harr2]
  have hpempty : r.pathname.isEmpty = false := by
    rw [hpath]
    rfl
  rw [← hsch, hlow, hlowh]
  cases hq : r.query with
  | some qs =>
    have hqs : ∀ x ∈ qs, (x == '#') = false := by
      intro x hx
      simp only [beq_eq_false_iff_ne, ne_eq]
      exact hwf.query_nohash qs hq x hx
    cases hf : r.frag with
    | some fs =>
      have harr3 : r.pathname ++ (qPart (some qs) ++ fPart (some fs))
          = r.pathname ++ '?' :: (qs ++ '#' :: fs) := by
        simp [qPart, fPart]
      rw [harr3, takeUntil_append _ _ _ _ pathStop (by decide)]
      dsimp only
      rw [if_neg (by rw [hpempty]; exact Bool.false_ne_true)]
      unfold parseQueryFrag
      dsimp only
      rw [if_pos (by decide)]
      rw [takeUntil_append _ _ _ _ hqs (by decide)]
      dsimp only
      exact congrArg some (URLRec.ext rfl rfl rfl hq.symm hf.symm)
    | none =>
      have harr3 : r.pathname ++ (qPart (some qs) ++ fPart none)
          = r.pathname ++ '?' :: qs := by
        simp [qPart, fPart]
      rw [harr3, takeUntil_append _ _ _ _ pathStop (by decide)]
      dsimp only
      rw [if_neg (by rw [hpempty]; exact Bool.false_ne_true)]
      unfold parseQueryFrag
      dsimp only
      rw [if_pos (by decide)]
      rw [takeUntil_all _ _ hqs]
      dsimp only
      exact congrArg some (URLRec.ext rfl rfl rfl hq.symm hf.symm)
  | none =>
    cases hf : r.frag with
    | some fs =>
      have harr3 : r.pathname ++ (qPart none ++ fPart (some fs))
          = r.pathname ++ '#' :: fs := by
        simp [qPart, fPart]
      rw [harr3, takeUntil_append _ _ _ _ pathStop (by decide)]
      dsimp only
      rw [if_neg (by rw [hpempty]; exact Bool.false_ne_true)]
      unfold parseQueryFrag
      dsimp only
      rw [if_neg (by decide), if_pos (by decide)]
      exact congrArg some (URLRec.ext rfl rfl rfl hq.symm hf.symm)
    | none =>
      have harr3 : r.pathname ++ (qPart none ++ fPart none) = r.pathname := by
        simp [qPart, fPart]
      rw [harr3, takeUntil_all _ _ pathStop]
      dsimp only
      rw [if_neg (by rw [hpempty]; exact Bool.false_ne_true)]
      unfold parseQueryFrag
      dsimp only
      exact congrArg some (URLRec.ext rfl rfl rfl hq.symm hf.symm)

/-! ## Idempotence analysis of `normalizeUrl` -/

/-- A path ends in two slashes.  `normalizeUrl` strips only one trailing
slash, so these are exactly the paths on which it is not a projection. -/
def endsTwoSlashes (p : List Char) : Prop :=
  p.getLast? = some '/' ∧ p.dropLast.getLast? = some '/'

instance (p : List Char) : Decidable (endsTwoSlashes p) := by
  unfold endsTwoSlashes
  infer_instance

theorem stripTrailingSlash_idem (p : List Char) (h : ¬ endsTwoSlashes p) :
    stripTrailingSlash (stripTrailingSlash p) = stripTrailingSlash p := by
  unfold stripTrailingSlash
  by_cases h1 : p ≠ ['/'] ∧ p.getLast? = some '/'
  · rw [if_pos h1, if_neg ?_]
    intro hcon
    exact h ⟨h1.2, hcon.2⟩
  · rw [if_neg h1, if_neg h1]

theorem stripTrailingSlash_head (p : List Char) (pt : List Char) (h : p = '/' :: pt) :
    ∃ pt', stripTrailingSlash p = '/' :: pt' := by
  unfold stripTrailingSlash
  by_cases h1 : p ≠ ['/'] ∧ p.getLast? = some '/'
  · rw [if_pos h1]
    subst h
    rcases pt with _ | ⟨x, xs⟩
    · exact absurd rfl h1.1
    · exact ⟨(x :: xs).dropLast, by rw [List.dropLast_cons_of_ne_nil (by simp)]⟩
  · rw [if_neg h1]
    exact ⟨pt, h⟩

theorem stripTrailingSlash_mem (p : List Char) (c : Char) (h : c ∈ stripTrailingSlash p) :
    c ∈ p := by
  unfold stripTrailingSlash at h
  by_cases h1 : p ≠ ['/'] ∧ p.getLast? = some '/'
  · rw [if_pos h1] at h
    exact (List.dropLast_sublist p).mem h
  · rw [if_neg h1] at h
    exact h

/-- `normRec` preserves the parser invariants, so its output serializes
and re-parses to itself. -/
theorem normRec_wf (f : Bool) (r : URLRec) (hwf : URLWF r) : URLWF (normRec f r) := by
  obtain ⟨pt, hpath⟩ := hwf.path_head
  have hfields : (normRec f r).scheme = r.scheme ∧ (normRec f r).host = r.host ∧
      (normRec f r).pathname = stripTrailingSlash r.pathname ∧
      (normRec f r).query = (if f then none else r.query) ∧
      (normRec f r).frag = none := by
    cases f <;> exact ⟨rfl, rfl, rfl, rfl, rfl⟩
  obtain ⟨hsc, hho, hpa, hqu, hfr⟩ := hfields
  constructor
  · rw [hsc]; exact hwf.scheme_head
  · rw [hsc]; exact hwf.scheme_lower
  · rw [hho]; exact hwf.host_ne
  · rw [hho]; exact hwf.host_lower
  · rw [hho]; exact hwf.host_nostop
  · rw [hpa]; exact stripTrailingSlash_head _ pt hpath
  · rw [hpa]
    intro c hc
    exact hwf.path_nostop c (stripTrailingSlash_mem _ c hc)
  · rw [hqu]
    cases f with
    | false =>
      simp only [if_neg Bool.false_ne_true]
      exact hwf.query_nohash
    | true =>
      simp only [if_pos rfl]
      intro l hl
      exact absurd hl (by simp)

theorem normRec_idem (f : Bool) (r : URLRec) (h : ¬ endsTwoSlashes r.pathname) :
    normRec f (normRec f r) = normRec f r := by
  apply URLRec.ext
  · cases f <;> rfl
  · cases f <;> rfl
  · have h1 : (normRec f r).pathname = stripTrailingSlash r.pathname := by cases f <;> rfl
    have h2 : (normRec f (normRec f r)).pathname
        = stripTrailingSlash (normRec f r).pathname := by cases f <;> rfl
    rw [h2, h1]
    exact stripTrailingSlash_idem _ h
  · cases f <;> rfl
  · cases f <;> rfl

/-- `normalizeUrl` on a string the URL parser accepts. -/
theorem normalizeUrl_eq_of_parse (url : String) (f : Bool) (u : URLRec)
    (h : parseURLChars url.data = some u) :
    normalizeUrl url f = String.mk (URLRec.toChars (normRec f u)) := by
  unfold normalizeUrl
  rw [h]

/-- `normalizeUrl` on a string the URL parser rejects (the `catch` branch). -/
theorem normalizeUrl_eq_of_fail (url : String) (f : Bool)
    (h : parseURLChars url.data = none) :
    normalizeUrl url f = url := by
  unfold normalizeUrl
  rw [h]

/-- C3 (amended): `normalizeUrl` is idempotent on every input whose parsed
pathname does not end in two slashes (and on every unparseable input); and
one application removes the fragment, removes the query iff the flag is
set, and removes one trailing slash from a non-root path. -/
theorem normalizeUrl_idem (u : String) (f : Bool)
    (h : ∀ r, parseURLChars u.data = some r → ¬ endsTwoSlashes r.pathname) :
    normalizeUrl (normalizeUrl u f) f = normalizeUrl u f ∧
    ∀ r, parseURLChars u.data = some r →
      normalizeUrl u f = String.mk (URLRec.toChars
        { scheme := r.scheme, host := r.host,
          pathname := stripTrailingSlash r.pathname,
          query := if f then none else r.query, frag := none }) := by
  constructor
  · cases hp : parseURLChars u.data with
    | none =>
      have e1 : normalizeUrl u f = u := normalizeUrl_eq_of_fail u f hp
      rw [e1]
      exact e1
    | some r =>
      have hwf := parse_wf _ _ hp
      have hne := h r hp
      have e1 := normalizeUrl_eq_of_parse u f r hp
      have hwf2 : URLWF (normRec f r) := normRec_wf f r hwf
      have hp2 : parseURLChars (String.mk (URLRec.toChars (normRec f r))).data
          = some (normRec f r) := toChars_parse _ hwf2
      have e2 := normalizeUrl_eq_of_parse _ f _ hp2
      rw [e1, e2, normRec_idem f r hne]
  · intro r hr
    rw [normalizeUrl_eq_of_parse u f r hr]
    cases f <;> rfl

/-- C3 (counterexample to the claim as stated): for a path ending in a
double slash only one slash is stripped, so a second normalization strips
another one and the result differs. -/
theorem normalizeUrl_not_idempotent :
    normalizeUrl (normalizeUrl "http://x.com/a//" false) false ≠
      normalizeUrl "http://x.com/a//" false := by
  decide

/-- C3 witness for `normalizeUrl_idem` at a concrete input. -/
theorem normalizeUrl_idem_witness :
    (∀ r, parseURLChars ("http://X.com/a/?q=1#frag").data = some r →
      ¬ endsTwoSlashes r.pathname) ∧
    normalizeUrl (normalizeUrl "http://X.com/a/?q=1#frag" true) true =
      normalizeUrl "http://X.com/a/?q=1#frag" true := by
  have hyp : ∀ r, parseURLChars ("http://X.com/a/?q=1#frag").data = some r →
      ¬ endsTwoSlashes r.pathname := by
    intro r hr
    have hx : parseURLChars ("http://X.com/a/?q=1#frag").data
        = some ⟨"http".data, "x.com".data, "/a/".data, some "q=1".data, some "frag".data⟩ := by
      decide
    rw [hx] at hr
    injection hr with hr
    subst hr
    decide
  exact ⟨hyp, (normalizeUrl_idem "http://X.com/a/?q=1#frag" true hyp).1⟩

/-- C9: when URL parsing fails, `normalizeUrl` returns its argument
unchanged, so the identity key is well defined on malformed URLs. -/
theorem normalizeUrl_total_on_parse_failure (u : String) (f : Bool)
    (h : parseURLChars u.data = none) : normalizeUrl u f = u :=
  normalizeUrl_eq_of_fail u f h

/-- C9 witness at a concrete malformed input. -/
theorem normalizeUrl_total_witness :
    parseURLChars ("not a url").data = none ∧
      normalizeUrl "not a url" true = "not a url" :=
  ⟨by decide, normalizeUrl_total_on_parse_failure "not a url" true (by decide)⟩

/-! ## robotsCrawler.js — `pathMatches` (lines 218-244)

The source compiles the robots pattern to a JavaScript regex:
`'^' + pattern.replace(/\*/g, '.*').replace(/\$$/, '$')`, then calls
`regex.test(path)`.  The embedding compiles the pattern to a token list:
`*` becomes a wildcard-sequence token, `.` an any-character token (it
stays a regex metacharacter), a trailing `$` becomes an end anchor, and
every other character a literal.  (Other regex metacharacters inside a
robots path pattern are not modelled — robots path patterns do not
contain them — nor is the invalid-regex `startsWith` fallback, which my
compiler never needs.)  `rmatch` is anchored at the start, matching
`test` with the leading `^`. -/

inductive RTok where
  | lit (c : Char)
  | anyChar
  | anySeq
  deriving DecidableEq, Repr

def compileBody : List Char → List RTok
  | [] => []
  | '*' :: rest => .anySeq :: compileBody rest
  | '.' :: rest => .anyChar :: compileBody rest
  | c :: rest => .lit c :: compileBody rest

def compilePattern (pat : List Char) : List RTok × Bool :=
  if pat.getLast? = some '$' then (compileBody pat.dropLast, true)
  else (compileBody pat, false)

/-- Regex matching, anchored at the start of `s`; `ea` is the end anchor:
without it a match of any prefix suffices (JavaScript `test`).  The `fuel`
argument only makes the recursion structural; every recursive call
strictly decreases `s.length + ts.length`, so the canonical fuel supplied
by `rmatch` is never exhausted (`rmatchFuel_irrel`). -/
def rmatchFuel : Nat → List RTok → List Char → Bool → Bool
  | 0, _, _, _ => false
  | _ + 1, [], s, ea => !ea || s.isEmpty
  | _ + 1, .lit _ :: _, [], _ => false
  | fuel + 1, .lit c :: ts, c' :: s, ea => c == c' && rmatchFuel fuel ts s ea
  | _ + 1, .anyChar :: _, [], _ => false
  | fuel + 1, .anyChar :: ts, _ :: s, ea => rmatchFuel fuel ts s ea
  | fuel + 1, .anySeq :: ts, [], ea => rmatchFuel fuel ts [] ea
  | fuel + 1, .anySeq :: ts, c :: s, ea =>
    rmatchFuel fuel ts (c :: s) ea || rmatchFuel fuel (.anySeq :: ts) s ea

def rmatch (ts : List RTok) (s : List Char) (ea : Bool) : Bool :=
  rmatchFuel (s.length + ts.length + 1) ts s ea

theorem rmatchFuel_irrel : ∀ (f1 : Nat) (f2 : Nat) (ts : List RTok) (s : List Char) (ea : Bool),
    s.length + ts.length < f1 → s.length + ts.length < f2 →
    rmatchFuel f1 ts s ea = rmatchFuel f2 ts s ea := by
  intro f1
  induction f1 with
  | zero => intro f2 ts s ea h1 h2; omega
  | succ f1 ih =>
    intro f2 ts s ea h1 h2
    match f2, h2 with
    | f2 + 1, h2 =>
      match ts, s with
      | [], s => rfl
      | .lit c :: ts, [] => rfl
      | .lit c :: ts, c' :: s =>
        simp only [rmatchFuel]
        rw [ih f2 ts s ea (by simp at h1 ⊢; omega) (by simp at h2 ⊢; omega)]
      | .anyChar :: ts, [] => rfl
      | .anyChar :: ts, c' :: s =>
        simp only [rmatchFuel]
        rw [ih f2 ts s ea (by simp at h1 ⊢; omega) (by simp at h2 ⊢; omega)]
      | .anySeq :: ts, [] =>
        simp only [rmatchFuel]
        rw [ih f2 ts [] ea (by simp at h1 ⊢; omega) (by simp at h2 ⊢; omega)]
      | .anySeq :: ts, c' :: s =>
        simp only [rmatchFuel]
        rw [ih f2 ts (c' :: s) ea (by simp at h1 ⊢; omega) (by simp at h2 ⊢; omega),
          ih f2 (.anySeq :: ts) s ea (by simp at h1 ⊢; omega) (by simp at h2 ⊢; omega)]

/-- `pathMatches(path, pattern)` with the source's branch order, including
the unreachable `if (pattern === '') return true` after the falsy guard. -/
def pathMatches (path pattern : String) : Bool :=
  if pattern = "" then false
  else if pattern = "/" then path == "/"
  else if pattern = "" then true
  else
    let (toks, anchor) := compilePattern pattern.data
    rmatch toks path.data anchor

/-- `pathMatches` with the dead `pattern === ''` branch removed. -/
def pathMatchesLive (path pattern : String) : Bool :=
  if pattern = "" then false
  else if pattern = "/" then path == "/"
  else
    let (toks, anchor) := compilePattern pattern.data
    rmatch toks path.data anchor

/-! ## robotsCrawler.js — rule model and `isPathAllowed` (lines 176-210) -/

/-- `String.prototype.toLowerCase()`, modelled character-wise (ASCII). -/
def jsToLower (s : String) : String := String.mk (s.data.map Char.toLower)

/-- `String.prototype.trim()`: strip leading and trailing whitespace. -/
def jsTrim (s : String) : String :=
  String.mk (((s.data.dropWhile Char.isWhitespace).reverse.dropWhile
    Char.isWhitespace).reverse)

/-- Per-agent rule block (`result.userAgents[agent]`). -/
structure AgentRules where
  disallow : List String
  allow : List String
  crawlDelay : Option Int := none
  deriving DecidableEq, Repr

/-- The part of the parsed robots data `isPathAllowed` reads.  A JS object
used as a dictionary is an association list; `none` models an absent
`userAgents` property. -/
structure RobotsData where
  userAgents : Option (List (String × AgentRules))
  deriving Repr

/-- The `for (const agent of agents)` loop body of `isPathAllowed`:
the first matching disallow decides, overridden by any strictly longer
matching allow; with no matching disallow, a nonempty allow list decides;
otherwise fall through to the next agent. -/
def isPathAllowedLoop (uaMap : List (String × AgentRules)) (path : String) :
    List String → Bool
  | [] => true
  | a :: rest =>
    match uaMap.lookup a with
    | none => isPathAllowedLoop uaMap path rest
    | some rules =>
      match rules.disallow.find? (fun d => pathMatches path d) with
      | some d => rules.allow.any (fun al => pathMatches path al && decide (al.length > d.length))
      | none =>
        if rules.allow.isEmpty then isPathAllowedLoop uaMap path rest
        else rules.allow.any (fun al => pathMatches path al)

/-- `isPathAllowed(robotsData, path, userAgent = '*')`. -/
def isPathAllowed (robotsData : RobotsData) (path : String)
    (userAgent : String := "*") : Bool :=
  match robotsData.userAgents with
  | none => true
  | some uaMap => isPathAllowedLoop uaMap path [jsToLower userAgent, "*"]

/-- The rule set of the C4 scenario: `Disallow: /private`,
`Allow: /private/public$` under agent `*`. -/
def exampleRobotsRules : AgentRules := ⟨["/private"], ["/private/public$"], none⟩

def exampleRobotsData : RobotsData := ⟨some [("*", exampleRobotsRules)]⟩

/-- C4: with `Disallow: /private` and `Allow: /private/public$`,
`/private/public` is allowed and `/private/x` is not; in general, in a
single-agent rule set the first matching Disallow wins unless some
matching Allow pattern is strictly longer. -/
theorem isPathAllowed_spec :
    isPathAllowed exampleRobotsData "/private/public" "*" = true ∧
    isPathAllowed exampleRobotsData "/private/x" "*" = false ∧
    ∀ (rules : AgentRules) (path d : String),
      rules.disallow.find? (fun q => pathMatches path q) = some d →
      (isPathAllowed ⟨some [("*", rules)]⟩ path "*" = true ↔
        rules.allow.any
          (fun al => pathMatches path al && decide (al.length > d.length)) = true) := by
  refine ⟨by decide, by decide, ?_⟩
  intro rules path d hfind
  unfold isPathAllowed
  dsimp only
  rw [show jsToLower "*" = "*" from by decide]
  unfold isPathAllowedLoop
  rw [show List.lookup "*" [("*", rules)] = some rules from by simp [List.lookup]]
  dsimp only
  rw [hfind]

/-- C4 witness: the general clause of `isPathAllowed_spec` applied to the
example rule set at path `/private/x`, whose first matching Disallow is
`/private`. -/
theorem isPathAllowed_spec_witness :
    (exampleRobotsRules.disallow.find? (fun q => pathMatches "/private/x" q)
      = some "/private") ∧
    ((isPathAllowed ⟨some [("*", exampleRobotsRules)]⟩ "/private/x" "*" = true) ↔
      (exampleRobotsRules.allow.any (fun al => pathMatches "/private/x" al &&
        decide (al.length > ("/private" : String).length)) = true)) :=
  ⟨by decide, isPathAllowed_spec.2.2 exampleRobotsRules "/private/x" "/private" (by decide)⟩

/-- C10: an empty robots pattern matches no path (`pathMatches(path, '')`
is `false` for every path), and the later `pattern === ''` branch that
returns `true` is unreachable: removing it does not change the function. -/
theorem pathMatches_empty_pattern :
    (∀ path, pathMatches path "" = false) ∧ pathMatches = pathMatchesLive := by
  constructor
  · intro path
    rfl
  · funext path pattern
    by_cases h1 : pattern = ""
    · simp [pathMatches, pathMatchesLive, h1]
    · by_cases h2 : pattern = "/"
      · simp [pathMatches, pathMatchesLive, h1, h2]
      · simp [pathMatches, pathMatchesLive, h1, h2]

/-! ## robotsCrawler.js — `parseRobotsTxt` (lines 85-167) and
`fetchRobotsTxt` (lines 17-78) -/

/-- `String.prototype.split(sep)` for a single-character separator. -/
def splitOnChar (sep : Char) : List Char → List (List Char)
  | [] => [[]]
  | c :: rest =>
    let r := splitOnChar sep rest
    if c == sep then [] :: r
    else
      match r with
      | [] => [[c]]
      | h :: t => (c :: h) :: t

/-- One `{ userAgent, path }` entry of the global `result.rules` lists. -/
structure RuleEntry where
  userAgent : Option String
  path : String
  deriving DecidableEq, Repr

/-- The global `result.rules` object. -/
structure RulesPair where
  disallow : List RuleEntry
  allow : List RuleEntry
  deriving DecidableEq, Repr

/-- The record `parseRobotsTxt` returns. -/
structure ParsedRobots where
  userAgents : List (String × AgentRules)
  sitemapUrls : List String
  crawlDelay : Option Int
  rules : RulesPair
  deriving Repr

/-- `parseInt(value)` for base-10 integers (the only inputs the parser
feeds it): optional sign followed by leading digits; `none` is `NaN`. -/
def jsParseInt (s : String) : Option Int :=
  let digitsVal : List Char → Option Int := fun l =>
    match l.takeWhile Char.isDigit with
    | [] => none
    | ds => some (ds.foldl (fun acc c => acc * 10 + ((c.toNat : Int) - 48)) 0)
  match s.data with
  | '-' :: rest => (digitsVal rest).map (fun n => -n)
  | '+' :: rest => digitsVal rest
  | l => digitsVal l

/-- Update the rule block of agent `k` in the dictionary. -/
def updateAgent (m : List (String × AgentRules)) (k : String)
    (f : AgentRules → AgentRules) : List (String × AgentRules) :=
  m.map (fun p => if p.1 = k then (p.1, f p.2) else p)

/-- The body of `parseRobotsTxt`'s `for (const line of lines)` loop; the
accumulator carries the result record and the `currentUserAgent` cursor. -/
def processRobotsLine (acc : ParsedRobots × Option String) (line : String) :
    ParsedRobots × Option String :=
  let (res, cur) := acc
  if line.data.head? = some '#' then acc
  else
    let pre := line.data.takeWhile (fun c => !(c == ':'))
    let post := line.data.dropWhile (fun c => !(c == ':'))
    match post with
    | [] => acc
    | _ :: valueChars =>
      let directive := jsToLower (jsTrim (String.mk pre))
      let value := jsTrim (String.mk valueChars)
      if directive = "user-agent" then
        let ua := jsToLower value
        let res' :=
          if (res.userAgents.lookup ua).isSome then res
          else { res with userAgents := res.userAgents ++ [(ua, ⟨[], [], none⟩)] }
        (res', some ua)
      else if directive = "disallow" then
        let res' :=
          match cur with
          | some ua =>
            let m := updateAgent res.userAgents ua
              (fun r => { r with disallow := r.disallow ++ [value] })
            { res with userAgents := m }
          | none => res
        let newRules := { res'.rules with disallow := res'.rules.disallow ++ [⟨cur, value⟩] }
        ({ res' with rules := newRules }, cur)
      else if directive = "allow" then
        let res' :=
          match cur with
          | some ua =>
            let m := updateAgent res.userAgents ua
              (fun r => { r with allow := r.allow ++ [value] })
            { res with userAgents := m }
          | none => res
        let newRules := { res'.rules with allow := res'.rules.allow ++ [⟨cur, value⟩] }
        ({ res' with rules := newRules }, cur)
      else if directive = "crawl-delay" then
        match jsParseInt value with
        | some d =>
          let res' :=
            match cur with
            | some ua =>
              let m := updateAgent res.userAgents ua (fun r => { r with crawlDelay := some d })
              { res with userAgents := m }
            | none => res
          ({ res' with crawlDelay := some d }, cur)
        | none => acc
      else if directive = "sitemap" then
        let su := jsTrim value
        if su ≠ "" ∧ ¬ res.sitemapUrls.contains su then
          ({ res with sitemapUrls := res.sitemapUrls ++ [su] }, cur)
        else acc
      else acc

/-- `parseRobotsTxt(content)`: split into trimmed nonempty lines and fold
the directive handler over them. -/
def parseRobotsTxt (content : String) : ParsedRobots :=
  let lines := ((splitOnChar '\n' content.data).map
    (fun l => jsTrim (String.mk l))).filter (fun l => l ≠ "")
  (lines.foldl processRobotsLine (⟨[], [], none, ⟨[], []⟩⟩, none)).1

/-- Outcome of one `fetch` call, supplied as an oracle: an HTTP response
(any status) or a network failure / timeout abort. -/
inductive FetchOutcome where
  | response (status : Nat) (body : String)
  | failure (message : String)
  deriving Repr

/-- `response.ok`: status in the 2xx range. -/
def statusOk (status : Nat) : Bool := decide (200 ≤ status ∧ status ≤ 299)

/-- The object `fetchRobotsTxt` resolves with.  Fields the source omits on
the failure paths (`userAgents`, `rules`, `crawlDelay`) are `none` there;
`responseTime` (wall-clock) is not modelled. -/
structure RobotsResult where
  url : String
  content : Option String
  statusCode : Option Nat
  sitemapUrls : List String
  userAgents : Option (List (String × AgentRules))
  crawlDelay : Option Int
  rules : Option RulesPair
  error : Option String
  deriving Repr

/-- Number of rules carried by a result (0 when the `rules` property is
absent). -/
def RobotsResult.ruleCount (r : RobotsResult) : Nat :=
  match r.rules with
  | none => 0
  | some rp => rp.disallow.length + rp.allow.length

/-- `${baseUrlObj.protocol}//${baseUrlObj.host}/robots.txt`. -/
def robotsUrlOf (b : URLRec) : String :=
  String.mk (b.scheme ++ (':' :: '/' :: '/' :: []) ++ b.host ++ ("/robots.txt").data)

/-- `fetchRobotsTxt(baseUrl)` with the network modelled by `outcome`.
When `new URL(baseUrl)` throws, the `catch` block evaluates
`new URL(baseUrl)` again while building its return object, so the
exception escapes the method: modelled as `Except.error`. -/
def fetchRobotsTxt (baseUrl : String) (outcome : FetchOutcome) :
    Except String RobotsResult :=
  match parseURLChars baseUrl.data with
  | none => Except.error "Invalid URL"
  | some b =>
    let robotsUrl := robotsUrlOf b
    match outcome with
    | .failure msg =>
      Except.ok
        { url := robotsUrl, content := none, statusCode := none,
          sitemapUrls := [], userAgents := none, crawlDelay := none, rules := none,
          error := some msg }
    | .response status body =>
      if statusOk status then
        let parsed := parseRobotsTxt body
        Except.ok
          { url := robotsUrl, content := some body, statusCode := some status,
            sitemapUrls := parsed.sitemapUrls, userAgents := some parsed.userAgents,
            crawlDelay := parsed.crawlDelay, rules := some parsed.rules, error := none }
      else
        Except.ok
          { url := robotsUrl, content := none, statusCode := some status,
            sitemapUrls := [], userAgents := none, crawlDelay := none, rules := none,
            error := some ("HTTP " ++ toString status) }

/-- C5 (counterexample to the claim as stated): on a baseUrl that does not
parse, `fetchRobotsTxt` throws (the catch block re-evaluates
`new URL(baseUrl)`), whatever the network does. -/
theorem fetchRobotsTxt_throws_on_malformed :
    fetchRobotsTxt "not a url" (.response 200 "") = Except.error "Invalid URL" := by
  rfl

/-- C5 (amended): for every baseUrl the URL constructor accepts,
`fetchRobotsTxt` never throws, and on a non-2xx response or a network
failure it resolves with null content, no sitemap URLs and no rules. -/
theorem fetchRobotsTxt_no_throw (baseUrl : String) (b : URLRec)
    (hb : parseURLChars baseUrl.data = some b) (outcome : FetchOutcome) :
    (∃ res, fetchRobotsTxt baseUrl outcome = Except.ok res) ∧
    (∀ msg, outcome = FetchOutcome.failure msg →
      ∃ res, fetchRobotsTxt baseUrl outcome = Except.ok res ∧ res.content = none ∧
        res.sitemapUrls = [] ∧ res.ruleCount = 0) ∧
    (∀ status body, outcome = FetchOutcome.response status body →
      statusOk status = false →
      ∃ res, fetchRobotsTxt baseUrl outcome = Except.ok res ∧ res.content = none ∧
        res.sitemapUrls = [] ∧ res.ruleCount = 0) := by
  refine ⟨?_, ?_, ?_⟩
  · cases outcome with
    | failure msg =>
      unfold fetchRobotsTxt
      rw [hb]
      exact ⟨_, rfl⟩
    | response status body =>
      unfold fetchRobotsTxt
      rw [hb]
      dsimp only
      by_cases hs : statusOk status = true
      · rw [if_pos hs]
        exact ⟨_, rfl⟩
      · rw [if_neg hs]
        exact ⟨_, rfl⟩
  · intro msg hmsg
    subst hmsg
    unfold fetchRobotsTxt
    rw [hb]
    exact ⟨_, rfl, rfl, rfl, rfl⟩
  · intro status body hresp hs
    subst hresp
    unfold fetchRobotsTxt
    rw [hb]
    dsimp only
    rw [if_neg (by rw [hs]; exact Bool.false_ne_true)]
    exact ⟨_, rfl, rfl, rfl, rfl⟩

/-- C5 witness: a parseable base URL with a network failure. -/
theorem fetchRobotsTxt_no_throw_witness :
    ∃ res, fetchRobotsTxt "http://example.com" (.failure "timeout")
        = Except.ok res ∧ res.content = none ∧ res.sitemapUrls = [] ∧
        res.ruleCount = 0 := by
  have hb : parseURLChars ("http://example.com").data
      = some ⟨"http".data, "example.com".data, ['/'], none, none⟩ := by decide
  exact (fetchRobotsTxt_no_throw "http://example.com" _ hb
    (.failure "timeout")).2.1 "timeout" rfl

/-! ## crawlProcessor.js — job polling (lines 60-96)

`findPendingJobs` runs
`findMany({ where: { status: { in: ["pending","running"] }, canContinue:
true }, orderBy: { createdAt: "asc" }, take: 1 })`; the store is modelled
as a list of job rows and the ordered query as filter + stable sort +
`take 1`.  `processPendingJobs` returns `none` when the `isProcessing`
re-entrancy flag is set (the invocation is a no-op) and otherwise the
list of jobs processed by this tick. -/

structure JobRow where
  id : Nat
  status : String
  canContinue : Bool
  createdAt : Nat
  deriving DecidableEq, Repr

/-- The `where` clause of `findPendingJobs`. -/
def eligibleJob (j : JobRow) : Bool :=
  (j.status == "pending" || j.status == "running") && j.canContinue

instance : DecidableRel (fun (a b : JobRow) => a.createdAt ≤ b.createdAt) :=
  fun a b => Nat.decLe a.createdAt b.createdAt

instance : IsTotal JobRow (fun a b => a.createdAt ≤ b.createdAt) :=
  ⟨fun a b => Nat.le_total a.createdAt b.createdAt⟩

instance : IsTrans JobRow (fun a b => a.createdAt ≤ b.createdAt) :=
  ⟨fun _ _ _ => Nat.le_trans⟩

def findPendingJobs (jobs : List JobRow) : List JobRow :=
  ((jobs.filter eligibleJob).insertionSort (fun a b => a.createdAt ≤ b.createdAt)).take 1

def processPendingJobs (isProcessing : Bool) (jobs : List JobRow) :
    Option (List JobRow) :=
  if isProcessing then none else some (findPendingJobs jobs)

/-- C8: a poller invocation while one is in flight is a no-op; otherwise
it processes exactly `findPendingJobs`, which holds at most one job, only
eligible jobs, a job of minimal creation time, and nothing when no job is
eligible. -/
theorem processPendingJobs_spec (jobs : List JobRow) :
    processPendingJobs true jobs = none ∧
    processPendingJobs false jobs = some (findPendingJobs jobs) ∧
    (findPendingJobs jobs).length ≤ 1 ∧
    (∀ j ∈ findPendingJobs jobs, eligibleJob j = true ∧
      ∀ k ∈ jobs, eligibleJob k = true → j.createdAt ≤ k.createdAt) ∧
    ((∀ j ∈ jobs, eligibleJob j = false) → findPendingJobs jobs = []) := by
  refine ⟨rfl, rfl, List.length_take_le 1 _, ?_, ?_⟩
  · intro j hj
    unfold findPendingJobs at hj
    rcases hs : (jobs.filter eligibleJob).insertionSort
        (fun a b => a.createdAt ≤ b.createdAt) with _ | ⟨a, t⟩
    · rw [hs] at hj
      simp at hj
    · rw [hs] at hj
      simp only [List.take_succ_cons, List.take_zero, List.mem_singleton] at hj
      subst hj
      have hperm := List.perm_insertionSort
        (fun (a b : JobRow) => a.createdAt ≤ b.createdAt) (jobs.filter eligibleJob)
      rw [hs] at hperm
      have hmem : j ∈ jobs.filter eligibleJob := hperm.mem_iff.mp (by simp)
      refine ⟨(List.mem_filter.mp hmem).2, ?_⟩
      intro k hk hke
      have hkmem : k ∈ jobs.filter eligibleJob := List.mem_filter.mpr ⟨hk, hke⟩
      have hksort : k ∈ j :: t := hperm.mem_iff.mpr hkmem
      have hsorted := List.sorted_insertionSort
        (fun (a b : JobRow) => a.createdAt ≤ b.createdAt) (jobs.filter eligibleJob)
      rw [hs] at hsorted
      rcases List.mem_cons.mp hksort with rfl | hkt
      · exact Nat.le_refl _
      · exact (List.sorted_cons.mp hsorted).1 k hkt
  · intro hnone
    unfold findPendingJobs
    have : jobs.filter eligibleJob = [] := by
      rw [List.filter_eq_nil_iff]
      intro a ha
      rw [hnone a ha]
      exact Bool.false_ne_true
    rw [this]
    rfl

/-- A small job store: an ineligible completed job, two eligible jobs and
a cancelled one. -/
def exampleJobs : List JobRow :=
  [⟨1, "completed", true, 5⟩, ⟨2, "running", true, 7⟩,
   ⟨3, "pending", true, 3⟩, ⟨4, "pending", false, 1⟩]

/-- C8 witness: on the example store the guarded call is a no-op and the
selected job is the eligible one with the earliest creation time. -/
theorem processPendingJobs_spec_witness :
    processPendingJobs true exampleJobs = none ∧
    eligibleJob ⟨3, "pending", true, 3⟩ = true ∧
    (3 : Nat) ≤ (7 : Nat) := by
  have h := (processPendingJobs_spec exampleJobs).2.2.2.1
    ⟨3, "pending", true, 3⟩ (by decide)
  exact ⟨(processPendingJobs_spec exampleJobs).1, h.1,
    h.2 ⟨2, "running", true, 7⟩ (by decide) (by decide)⟩

/-! ## crawlProcessor.js — URL level and post-type detection
(lines 791-863) -/

/-- `pathname.split('/').filter(segment => segment.length > 0)`. -/
def pathSegments (p : List Char) : List (List Char) :=
  (splitOnChar '/' p).filter (fun seg => seg.length > 0)

/-- `getUrlLevel(url)`: 0 for the root path, the number of non-empty path
segments otherwise, and 1 when URL parsing fails (the `catch`). -/
def getUrlLevel (url : String) : Nat :=
  match parseURLChars url.data with
  | none => 1
  | some u =>
    if u.pathname = ['/'] ∨ u.pathname = [] then 0
    else (pathSegments u.pathname).length

/-- Tokens of the fixed path-pattern regexes of `detectPostType`:
an alternation of literal strings (e.g. `\/(blog|post|article|news)\/`),
an exact digit count (`\d{4}`), and `.*`. -/
inductive PTok where
  | strs (ss : List (List Char))
  | digits (n : Nat)
  | dotStar
  deriving Repr

/-- Anchored-at-start match of a token sequence against `s`, allowing any
suffix to remain.  `fuel` makes the recursion structural; every call
strictly decreases `(s.length, ts.length)` lexicographically, so the
fuel supplied by `testP` is never exhausted. -/
def matchPFuel : Nat → List PTok → List Char → Bool
  | 0, _, _ => false
  | _ + 1, [], _ => true
  | fuel + 1, .strs ss :: ts, s =>
    ss.any (fun w => w.isPrefixOf s && matchPFuel fuel ts (s.drop w.length))
  | fuel + 1, .digits n :: ts, s =>
    decide ((s.take n).length = n) && (s.take n).all Char.isDigit &&
      matchPFuel fuel ts (s.drop n)
  | fuel + 1, .dotStar :: ts, s =>
    matchPFuel fuel ts s ||
      (match s with
       | [] => false
       | _ :: s' => matchPFuel fuel (.dotStar :: ts) s')

/-- Unanchored regex `test`: try a match at every start position. -/
def testP (ts : List PTok) : List Char → Bool
  | [] => matchPFuel ((ts.length + 1) * 2) ts []
  | c :: s => matchPFuel ((s.length + 2) * (ts.length + 1) * 2) ts (c :: s) || testP ts s

def patBlogDate : List PTok :=
  [.strs ["/blog/".data, "/post/".data, "/article/".data, "/news/".data],
   .dotStar, .digits 4]

def patDateArchive : List PTok :=
  [.strs [['/']], .digits 4, .strs [['/']], .digits 2, .strs [['/']],
   .digits 2, .strs [['/']]]

def patBlog : List PTok :=
  [.strs ["/blog/".data, "/post/".data, "/article/".data, "/news/".data]]

def patProduct1 : List PTok := [.strs ["/product/".data, "/item/".data, "/shop/".data]]

def patProduct2 : List PTok := [.strs ["/p/".data, "/products/".data]]

def patCategory1 : List PTok :=
  [.strs ["/category/".data, "/tag/".data, "/archive/".data, "/topics/".data]]

def patCategory2 : List PTok := [.strs ["/cat/".data, "/tags/".data]]

def patService : List PTok :=
  [.strs ["/services/".data, "/solutions/".data, "/features/".data]]

def patAbout : List PTok :=
  [.strs ["/about/".data, "/company/".data, "/team/".data, "/contact/".data]]

def patDocs : List PTok :=
  [.strs ["/docs/".data, "/help/".data, "/support/".data, "/faq/".data, "/guide/".data]]

/-- `String.prototype.includes` on char lists. -/
def listIsInfixOf : List Char → List Char → Bool
  | needle, [] => needle.isEmpty
  | needle, c :: t => needle.isPrefixOf (c :: t) || listIsInfixOf needle t

/-- The slice of extracted page data `detectPostType` reads. -/
structure PageData where
  title : Option String
  deriving Repr

/-- The title-keyword check and segment-count fallback at the end of
`detectPostType` (source lines 845-859). -/
def detectPostTypeFallback (pathname : List Char) (pageData : Option PageData) : String :=
  let fromTitle : Option String :=
    match pageData with
    | some pd =>
      match pd.title with
      | some t =>
        let tl := (jsToLower t).data
        if (listIsInfixOf "blog".data tl || listIsInfixOf "post".data tl ||
            listIsInfixOf "article".data tl) then some "blog-post"
        else if (listIsInfixOf "product".data tl || listIsInfixOf "buy".data tl ||
            listIsInfixOf "price".data tl) then some "product"
        else if (listIsInfixOf "category".data tl ||
            listIsInfixOf "archive".data tl) then some "category"
        else none
      | none => none
    | none => none
  match fromTitle with
  | some ty => ty
  | none =>
    let segs := pathSegments pathname
    if segs.length = 0 then "homepage"
    else if segs.length = 1 then "section"
    else "content"

/-- `detectPostType(url, pageData = null)`: URL-pattern heuristics in
source order, then the root check, then title keywords when page data is
present, then the segment-count fallback.  The source's trailing
`return 'other'` is unreachable (the fallback covers every count) and the
`catch` returns `"other"`. -/
def detectPostType (url : String) (pageData : Option PageData := none) : String :=
  match parseURLChars url.data with
  | none => "other"
  | some u =>
    let pathname := u.pathname.map Char.toLower
    if testP patBlogDate pathname then "blog-post"
    else if testP patDateArchive pathname then "blog-post"
    else if testP patBlog pathname then "blog-post"
    else if testP patProduct1 pathname then "product"
    else if testP patProduct2 pathname then "product"
    else if testP patCategory1 pathname then "category"
    else if testP patCategory2 pathname then "category"
    else if testP patService pathname then "service"
    else if testP patAbout pathname then "about"
    else if testP patDocs pathname then "documentation"
    else if pathname = ['/'] ∨ pathname = [] then "homepage"
    else detectPostTypeFallback pathname pageData

/-! ## crawlProcessor.js — sampled-crawl gate and the per-page step
(lines 188-256, 746-784, 879-908) -/

/-- `shouldSkipForSampledCrawl(url, postTypeCounters)`: level-1 URLs pass;
deeper URLs are gated by the 3-per-category quota.  The counters `Map` is
an association list. -/
def shouldSkipForSampledCrawl (url : String)
    (postTypeCounters : List (String × Nat)) : Bool :=
  let urlLevel := getUrlLevel url
  if urlLevel = 1 then false
  else
    let postType := detectPostType url
    let currentCount := (postTypeCounters.lookup postType).getD 0
    decide (currentCount ≥ 3)

/-- `shouldSkipPage`: already-crawled dedup, then the max-pages cap
against the persisted page count. -/
def shouldSkipPage (normalizedUrl : String) (crawledUrls : List String)
    (currentCount maxPages : Nat) : Bool :=
  crawledUrls.contains normalizedUrl || decide (currentCount ≥ maxPages)

/-- The job fields the crawl step reads. -/
structure CrawlJobRec where
  url : String
  maxPages : Nat
  sampledCrawl : Bool
  ignoreUrlParameters : Bool
  deriving Repr

/-- Job-scoped in-memory and persisted crawl state: the already-seen set,
the persisted `InternalLink` row count for this job, and the sampled-crawl
post-type counters. -/
structure CrawlState where
  crawledUrls : List String
  pageCount : Nat
  postTypeCounters : List (String × Nat)
  deriving Repr

/-- `Map.prototype.set`: update in place or append. -/
def mapSet (m : List (String × Nat)) (k : String) (v : Nat) : List (String × Nat) :=
  if (m.lookup k).isSome then m.map (fun p => if p.1 = k then (p.1, v) else p)
  else m ++ [(k, v)]

/-- One fetched page handed to the request handler: its loaded URL and
extracted title. -/
structure PageInput where
  url : String
  title : Option String
  deriving Repr

/-- The state effect of one `handlePageCrawl` invocation: normalize, skip
if seen or at the cap, skip by the sampled gate, mark seen, bump the
post-type counter for level ≥ 2 pages, persist one page row. -/
def handlePageCrawl (job : CrawlJobRec) (input : PageInput) (st : CrawlState) :
    CrawlState :=
  let normalizedUrl := normalizeUrl input.url job.ignoreUrlParameters
  if shouldSkipPage normalizedUrl st.crawledUrls st.pageCount job.maxPages then st
  else if job.sampledCrawl && shouldSkipForSampledCrawl normalizedUrl st.postTypeCounters
    then st
  else
    let st1 : CrawlState := { st with crawledUrls := normalizedUrl :: st.crawledUrls }
    let st2 : CrawlState :=
      if job.sampledCrawl then
        if getUrlLevel normalizedUrl > 1 then
          let postType := detectPostType normalizedUrl (some ⟨input.title⟩)
          let currentCount := (st1.postTypeCounters.lookup postType).getD 0
          { st1 with postTypeCounters := mapSet st1.postTypeCounters postType (currentCount + 1) }
        else st1
      else st1
    { st2 with pageCount := st2.pageCount + 1 }

def initialCrawlState : CrawlState := ⟨[], 0, []⟩

/-- A whole crawl run: the request handler fired on a sequence of fetched
pages, starting from a fresh job's state. -/
def runCrawl (job : CrawlJobRec) (inputs : List PageInput) : CrawlState :=
  inputs.foldl (fun st i => handlePageCrawl job i st) initialCrawlState

/-- The job-record fields `finalizeCrawl` writes: status `completed`,
`pagesCrawled` set to the final persisted page count, `pagesRemaining` 0. -/
structure JobFinal where
  status : String
  pagesCrawled : Nat
  pagesRemaining : Nat
  deriving Repr

def finalizeCrawl (st : CrawlState) : JobFinal :=
  { status := "completed", pagesCrawled := st.pageCount, pagesRemaining := 0 }

/-- Each `handlePageCrawl` call either leaves the state unchanged (a skip)
or persists exactly one page, and it persists only below the cap. -/
theorem handlePageCrawl_cases (job : CrawlJobRec) (i : PageInput) (st : CrawlState) :
    handlePageCrawl job i st = st ∨
    (st.pageCount < job.maxPages ∧
      (handlePageCrawl job i st).pageCount = st.pageCount + 1) := by
  unfold handlePageCrawl
  by_cases h1 : shouldSkipPage (normalizeUrl i.url job.ignoreUrlParameters)
      st.crawledUrls st.pageCount job.maxPages = true
  · rw [if_pos h1]
    exact Or.inl rfl
  · rw [if_neg h1]
    by_cases h2 : (job.sampledCrawl && shouldSkipForSampledCrawl
        (normalizeUrl i.url job.ignoreUrlParameters) st.postTypeCounters) = true
    · rw [if_pos h2]
      exact Or.inl rfl
    · rw [if_neg h2]
      right
      have hlt : st.pageCount < job.maxPages := by
        unfold shouldSkipPage at h1
        simp only [Bool.or_eq_true, decide_eq_true_eq, not_or] at h1
        omega
      refine ⟨hlt, ?_⟩
      dsimp only
      by_cases h3 : job.sampledCrawl = true
      · rw [if_pos h3]
        by_cases h4 : getUrlLevel (normalizeUrl i.url job.ignoreUrlParameters) > 1
        · rw [if_pos h4]
        · rw [if_neg h4]
      · rw [if_neg h3]

/-- C1: after a crawl run starting at or below the cap, `finalizeCrawl`
stores a `pagesCrawled` that never exceeds `maxPages`; in particular this
holds for a full run from a fresh job state. -/
theorem pagesCrawled_le_maxPages (job : CrawlJobRec) (inputs : List PageInput)
    (st0 : CrawlState) (h0 : st0.pageCount ≤ job.maxPages) :
    (finalizeCrawl (inputs.foldl (fun st i => handlePageCrawl job i st) st0)).pagesCrawled
      ≤ job.maxPages ∧
    (finalizeCrawl (runCrawl job inputs)).pagesCrawled ≤ job.maxPages := by
  have main : ∀ (l : List PageInput) (st : CrawlState), st.pageCount ≤ job.maxPages →
      (l.foldl (fun st i => handlePageCrawl job i st) st).pageCount ≤ job.maxPages := by
    intro l
    induction l with
    | nil => intro st h; exact h
    | cons i rest ih =>
      intro st h
      simp only [List.foldl_cons]
      apply ih
      rcases handlePageCrawl_cases job i st with he | ⟨hlt, he⟩
      · rw [he]; exact h
      · rw [he]; omega
  exact ⟨main inputs st0 h0, main inputs initialCrawlState (Nat.zero_le _)⟩

/-- C1 witness: a 3-page run against a cap of 2. -/
theorem pagesCrawled_le_maxPages_witness :
    initialCrawlState.pageCount ≤ (2 : Nat) ∧
    (finalizeCrawl (runCrawl ⟨"http://x.com", 2, false, false⟩
      [⟨"http://x.com/", none⟩, ⟨"http://x.com/a", none⟩,
       ⟨"http://x.com/b", none⟩])).pagesCrawled ≤ 2 :=
  ⟨by decide, (pagesCrawled_le_maxPages ⟨"http://x.com", 2, false, false⟩
    [⟨"http://x.com/", none⟩, ⟨"http://x.com/a", none⟩, ⟨"http://x.com/b", none⟩]
    initialCrawlState (by decide)).2⟩

/-! ## Classification facts needed for the sampled-crawl admission claim

A URL of level 0 has a pathname consisting solely of slashes; no
`detectPostType` URL pattern matches such a path, so its category is
`homepage` — and the `homepage` counter is never incremented, because
counters are only bumped for level ≥ 2 pages, which never classify as
`homepage`. -/

def allSlash (s : List Char) : Prop := ∀ c ∈ s, c = '/'

theorem allSlash_map_toLower (s : List Char) (h : allSlash s) :
    s.map Char.toLower = s := by
  have : s.map Char.toLower = s.map id := by
    apply List.map_congr_left
    intro c hc
    rw [h c hc]
    rfl
  rw [this, List.map_id]

theorem isPrefixOf_allSlash : ∀ (w s : List Char), w.isPrefixOf s = true →
    allSlash s → allSlash w
  | [], _, _, _ => by intro c hc; simp at hc
  | c :: w', [], h, _ => by simp [List.isPrefixOf] at h
  | c :: w', d :: s', h, hs => by
    simp only [List.isPrefixOf, Bool.and_eq_true, beq_iff_eq] at h
    intro x hx
    rcases List.mem_cons.mp hx with rfl | hx
    · rw [h.1]
      exact hs d (by simp)
    · exact isPrefixOf_allSlash w' s' h.2 (fun y hy => hs y (by simp [hy])) x hx

theorem matchPFuel_strs (f : Nat) (hf : 0 < f) (ss : List (List Char))
    (ts : List PTok) (s : List Char) :
    matchPFuel f (.strs ss :: ts) s
      = ss.any (fun w => w.isPrefixOf s && matchPFuel (f - 1) ts (s.drop w.length)) := by
  match f, hf with
  | f + 1, _ => simp [matchPFuel]

theorem strs_any_false (ss : List (List Char)) (ts : List PTok) (f : Nat)
    (s : List Char) (hs : allSlash s)
    (hss : ∀ w ∈ ss, ∃ c ∈ w, ¬ c = '/') :
    (ss.any fun w => w.isPrefixOf s && matchPFuel f ts (s.drop w.length)) = false := by
  rw [List.any_eq_false]
  intro w hw
  by_cases hp : w.isPrefixOf s = true
  · obtain ⟨c, hcw, hc⟩ := hss w hw
    exact absurd (isPrefixOf_allSlash w s hp hs c hcw) hc
  · rw [Bool.not_eq_true] at hp
    intro hcon
    rw [hp] at hcon
    simp at hcon

theorem matchPFuel_digits_false (f n : Nat) (ts : List PTok) (s : List Char)
    (hn : 0 < n) (hs : allSlash s) :
    matchPFuel f (.digits n :: ts) s = false := by
  match f with
  | 0 => rfl
  | f + 1 =>
    show (decide ((s.take n).length = n) && (s.take n).all Char.isDigit &&
      matchPFuel f ts (s.drop n)) = false
    rcases s with _ | ⟨c, t⟩
    · simp only [List.take_nil, List.length_nil, List.drop_nil]
      rw [decide_eq_false (by omega : ¬ ((0 : Nat) = n))]
      rfl
    · have hc : c = '/' := hs c (by simp)
      obtain ⟨m, rfl⟩ : ∃ m, n = m + 1 := ⟨n - 1, by omega⟩
      have hall : ((c :: t).take (m + 1)).all Char.isDigit = false := by
        simp only [List.take_succ_cons, List.all_cons]
        rw [hc, show ('/' : Char).isDigit = false from rfl]
        rfl
      rw [hall, Bool.and_false, Bool.false_and]

/-- No pattern whose head alternation consists of strings each containing
a non-slash character matches (at any position) a slash-only path. -/
theorem testP_letter_false (ss : List (List Char)) (ts : List PTok) :
    ∀ (s : List Char), allSlash s → (∀ w ∈ ss, ∃ c ∈ w, ¬ c = '/') →
    testP (.strs ss :: ts) s = false := by
  intro s
  induction s with
  | nil =>
    intro hs hss
    show matchPFuel ((ts.length + 1 + 1) * 2) (.strs ss :: ts) [] = false
    rw [matchPFuel_strs _ (by omega)]
    exact strs_any_false ss ts _ [] hs hss
  | cons c t ih =>
    intro hs hss
    show (matchPFuel _ (.strs ss :: ts) (c :: t) || testP (.strs ss :: ts) t) = false
    rw [matchPFuel_strs _ (by positivity)]
    rw [strs_any_false ss ts _ (c :: t) hs hss]
    rw [ih (fun y hy => hs y (by simp [hy])) hss]
    rfl

/-- Nor does a pattern that starts `/` followed by a positive digit
requirement (the date-archive pattern): the digits fail at every start. -/
theorem testP_slash_digits_false (k : Nat) (rest : List PTok) :
    ∀ (s : List Char), allSlash s →
    testP (.strs [['/']] :: .digits (k + 1) :: rest) s = false := by
  intro s
  induction s with
  | nil =>
    intro hs
    show matchPFuel _ (.strs [['/']] :: .digits (k + 1) :: rest) [] = false
    rw [matchPFuel_strs _ (by omega)]
    simp [List.isPrefixOf]
  | cons c t ih =>
    intro hs
    show (matchPFuel _ (.strs [['/']] :: .digits (k + 1) :: rest) (c :: t) ||
      testP (.strs [['/']] :: .digits (k + 1) :: rest) t) = false
    rw [matchPFuel_strs _ (by positivity)]
    have hany : ∀ f, ([['/']].any fun w => w.isPrefixOf (c :: t) &&
        matchPFuel f (.digits (k + 1) :: rest) ((c :: t).drop w.length)) = false := by
      intro f
      simp only [List.any_cons, List.any_nil, Bool.or_false]
      rw [matchPFuel_digits_false f (k + 1) rest _ (by omega)
        (fun y hy => hs y (List.mem_of_mem_drop hy))]
      rw [Bool.and_false]
    rw [hany, ih (fun y hy => hs y (by simp [hy]))]
    rfl

theorem splitOnChar_cons (sep c : Char) (t : List Char) :
    splitOnChar sep (c :: t)
      = if c == sep then [] :: splitOnChar sep t
        else match splitOnChar sep t with
          | [] => [[c]]
          | h :: t' => (c :: h) :: t' := rfl

theorem splitOnChar_ne_nil (sep : Char) (l : List Char) : splitOnChar sep l ≠ [] := by
  cases l with
  | nil => simp [splitOnChar]
  | cons c t =>
    rw [splitOnChar_cons]
    by_cases hc : (c == sep) = true
    · rw [if_pos hc]
      simp
    · rw [if_neg hc]
      cases h : splitOnChar sep t with
      | nil => simp
      | cons a b => simp

theorem pathSegments_slash_cons (t : List Char) :
    pathSegments ('/' :: t) = pathSegments t := by
  unfold pathSegments
  rw [splitOnChar_cons, if_pos (by decide)]
  rw [List.filter_cons]
  simp

theorem pathSegments_cons_ne (c : Char) (t : List Char) (h : ¬ c = '/') :
    ∃ a b, pathSegments (c :: t) = a :: b := by
  unfold pathSegments
  rw [splitOnChar_cons, if_neg (by simpa using h)]
  cases hsp : splitOnChar '/' t with
  | nil => exact absurd hsp (splitOnChar_ne_nil '/' t)
  | cons a b =>
    rw [List.filter_cons]
    rw [if_pos (by simp)]
    exact ⟨_, _, rfl⟩

/-- A path with no nonempty segment consists solely of slashes. -/
theorem allSlash_of_segments_nil : ∀ (p : List Char),
    (pathSegments p).length = 0 → allSlash p := by
  intro p
  induction p with
  | nil =>
    intro _ c hc
    simp at hc
  | cons c t ih =>
    intro h
    by_cases hc : c = '/'
    · subst hc
      rw [pathSegments_slash_cons] at h
      intro x hx
      rcases List.mem_cons.mp hx with rfl | hx
      · rfl
      · exact ih h x hx
    · obtain ⟨a, b, hab⟩ := pathSegments_cons_ne c t hc
      rw [hab] at h
      simp at h

theorem splitOnChar_map_toLower (l : List Char) :
    splitOnChar '/' (l.map Char.toLower)
      = (splitOnChar '/' l).map (List.map Char.toLower) := by
  induction l with
  | nil => rfl
  | cons c t ih =>
    simp only [List.map_cons]
    rw [splitOnChar_cons, splitOnChar_cons]
    by_cases hc : (c == '/') = true
    · have hc' : c = '/' := by simpa using hc
      subst hc'
      rw [if_pos (by decide), if_pos (by decide)]
      simp [ih]
    · have hc2 : (Char.toLower c == '/') = false := by
        simp only [beq_eq_false_iff_ne, ne_eq]
        intro he
        exact (by simpa using hc : ¬ c = '/') ((toLower_eq_low_iff c '/' (by decide)).mp he)
      rw [if_neg (by rw [hc2]; exact Bool.false_ne_true), if_neg hc]
      rw [ih]
      cases hsp : splitOnChar '/' t with
      | nil => exact absurd hsp (splitOnChar_ne_nil '/' t)
      | cons a b => simp

theorem pathSegments_map_toLower_length (p : List Char) :
    (pathSegments (p.map Char.toLower)).length = (pathSegments p).length := by
  unfold pathSegments
  rw [splitOnChar_map_toLower, List.filter_map]
  rw [List.length_map]
  congr 1
  apply List.filter_congr
  intro x hx
  simp [Function.comp]

theorem map_toLower_eq_root (p : List Char) (h : p.map Char.toLower = ['/']) :
    p = ['/'] := by
  rcases p with _ | ⟨c, t⟩
  · simp at h
  · simp only [List.map_cons, List.cons.injEq] at h
    obtain ⟨h1, h2⟩ := h
    rw [List.map_eq_nil_iff] at h2
    subst h2
    rw [(toLower_eq_low_iff c '/' (by decide)).mp h1]

/-- The fallback classifies as `homepage` only paths with no nonempty
segment. -/
theorem fallback_homepage (pathname : List Char) (pd : Option PageData)
    (h : detectPostTypeFallback pathname pd = "homepage") :
    (pathSegments pathname).length = 0 := by
  unfold detectPostTypeFallback at h
  by_cases h0 : (pathSegments pathname).length = 0
  · exact h0
  · exfalso
    have htail : ∀ (o : Option String),
        (o = none →
          (match o with
           | some ty => ty
           | none =>
             if (pathSegments pathname).length = 0 then "homepage"
             else if (pathSegments pathname).length = 1 then "section"
             else "content") ≠ "homepage") := by
      intro o ho
      subst ho
      rw [if_neg h0]
      by_cases h1 : (pathSegments pathname).length = 1
      · rw [if_pos h1]
        decide
      · rw [if_neg h1]
        decide
    cases pd with
    | none => exact htail none rfl (by exact h)
    | some pdd =>
      dsimp only at h
      cases ht : pdd.title with
      | none =>
        rw [ht] at h
        exact htail none rfl h
      | some t =>
        rw [ht] at h
        dsimp only at h
        by_cases b1 : (listIsInfixOf "blog".data (jsToLower t).data ||
            listIsInfixOf "post".data (jsToLower t).data ||
            listIsInfixOf "article".data (jsToLower t).data) = true
        · rw [if_pos b1] at h
          simp at h
        · rw [if_neg b1] at h
          by_cases b2 : (listIsInfixOf "product".data (jsToLower t).data ||
              listIsInfixOf "buy".data (jsToLower t).data ||
              listIsInfixOf "price".data (jsToLower t).data) = true
          · rw [if_pos b2] at h
            simp at h
          · rw [if_neg b2] at h
            by_cases b3 : (listIsInfixOf "category".data (jsToLower t).data ||
                listIsInfixOf "archive".data (jsToLower t).data) = true
            · rw [if_pos b3] at h
              simp at h
            · rw [if_neg b3] at h
              exact htail none rfl h

/-- Slash-only pathname (level 0) ⟹ category `homepage`. -/
theorem detectPostType_homepage_of_allSlash (url : String) (u : URLRec)
    (hp : parseURLChars url.data = some u) (hs : allSlash u.pathname)
    (hseg : (pathSegments u.pathname).length = 0) :
    detectPostType url none = "homepage" := by
  unfold detectPostType
  rw [hp]
  dsimp only
  rw [allSlash_map_toLower u.pathname hs]
  rw [if_neg (by
    rw [show testP patBlogDate u.pathname = false from
      testP_letter_false _ _ u.pathname hs (by decide)]
    exact Bool.false_ne_true)]
  rw [if_neg (by
    rw [show testP patDateArchive u.pathname = false from
      testP_slash_digits_false 3 _ u.pathname hs]
    exact Bool.false_ne_true)]
  rw [if_neg (by
    rw [show testP patBlog u.pathname = false from
      testP_letter_false _ _ u.pathname hs (by decide)]
    exact Bool.false_ne_true)]
  rw [if_neg (by
    rw [show testP patProduct1 u.pathname = false from
      testP_letter_false _ _ u.pathname hs (by decide)]
    exact Bool.false_ne_true)]
  rw [if_neg (by
    rw [show testP patProduct2 u.pathname = false from
      testP_letter_false _ _ u.pathname hs (by decide)]
    exact Bool.false_ne_true)]
  rw [if_neg (by
    rw [show testP patCategory1 u.pathname = false from
      testP_letter_false _ _ u.pathname hs (by decide)]
    exact Bool.false_ne_true)]
  rw [if_neg (by
    rw [show testP patCategory2 u.pathname = false from
      testP_letter_false _ _ u.pathname hs (by decide)]
    exact Bool.false_ne_true)]
  rw [if_neg (by
    rw [show testP patService u.pathname = false from
      testP_letter_false _ _ u.pathname hs (by decide)]
    exact Bool.false_ne_true)]
  rw [if_neg (by
    rw [show testP patAbout u.pathname = false from
      testP_letter_false _ _ u.pathname hs (by decide)]
    exact Bool.false_ne_true)]
  rw [if_neg (by
    rw [show testP patDocs u.pathname = false from
      testP_letter_false _ _ u.pathname hs (by decide)]
    exact Bool.false_ne_true)]
  by_cases hroot : u.pathname = ['/'] ∨ u.pathname = []
  · rw [if_pos hroot]
  · rw [if_neg hroot]
    unfold detectPostTypeFallback
    dsimp only
    rw [if_pos hseg]

/-- A URL of level ≥ 2 never classifies as `homepage`, whatever page data
is supplied. -/
theorem detectPostType_ne_homepage (url : String) (pd : Option PageData)
    (h : 1 < getUrlLevel url) : ¬ detectPostType url pd = "homepage" := by
  intro hcon
  unfold getUrlLevel at h
  unfold detectPostType at hcon
  cases hp : parseURLChars url.data with
  | none =>
    rw [hp] at h
    dsimp only at h
    omega
  | some u =>
    rw [hp] at h hcon
    dsimp only at h hcon
    by_cases hroot : u.pathname = ['/'] ∨ u.pathname = []
    · rw [if_pos hroot] at h
      omega
    · rw [if_neg hroot] at h
      by_cases b1 : testP patBlogDate (u.pathname.map Char.toLower) = true
      · rw [if_pos b1] at hcon
        exact absurd hcon (by decide)
      rw [if_neg b1] at hcon
      by_cases b2 : testP patDateArchive (u.pathname.map Char.toLower) = true
      · rw [if_pos b2] at hcon
        exact absurd hcon (by decide)
      rw [if_neg b2] at hcon
      by_cases b3 : testP patBlog (u.pathname.map Char.toLower) = true
      · rw [if_pos b3] at hcon
        exact absurd hcon (by decide)
      rw [if_neg b3] at hcon
      by_cases b4 : testP patProduct1 (u.pathname.map Char.toLower) = true
      · rw [if_pos b4] at hcon
        exact absurd hcon (by decide)
      rw [if_neg b4] at hcon
      by_cases b5 : testP patProduct2 (u.pathname.map Char.toLower) = true
      · rw [if_pos b5] at hcon
        exact absurd hcon (by decide)
      rw [if_neg b5] at hcon
      by_cases b6 : testP patCategory1 (u.pathname.map Char.toLower) = true
      · rw [if_pos b6] at hcon
        exact absurd hcon (by decide)
      rw [if_neg b6] at hcon
      by_cases b7 : testP patCategory2 (u.pathname.map Char.toLower) = true
      · rw [if_pos b7] at hcon
        exact absurd hcon (by decide)
      rw [if_neg b7] at hcon
      by_cases b8 : testP patService (u.pathname.map Char.toLower) = true
      · rw [if_pos b8] at hcon
        exact absurd hcon (by decide)
      rw [if_neg b8] at hcon
      by_cases b9 : testP patAbout (u.pathname.map Char.toLower) = true
      · rw [if_pos b9] at hcon
        exact absurd hcon (by decide)
      rw [if_neg b9] at hcon
      by_cases b10 : testP patDocs (u.pathname.map Char.toLower) = true
      · rw [if_pos b10] at hcon
        exact absurd hcon (by decide)
      rw [if_neg b10] at hcon
      by_cases broot : u.pathname.map Char.toLower = ['/'] ∨ u.pathname.map Char.toLower = []
      · rcases broot with hr | hr
        · exact hroot (Or.inl (map_toLower_eq_root _ hr))
        · rw [List.map_eq_nil_iff] at hr
          exact hroot (Or.inr hr)
      rw [if_neg broot] at hcon
      have hseg := fallback_homepage _ _ hcon
      rw [pathSegments_map_toLower_length] at hseg
      omega

theorem lookup_map_modify_ne (m : List (String × Nat)) (k k' : String) (v : Nat)
    (h : ¬ k' = k) :
    (m.map (fun p => if p.1 = k then (p.1, v) else p)).lookup k' = m.lookup k' := by
  induction m with
  | nil => rfl
  | cons p t ih =>
    rcases p with ⟨pk, pv⟩
    simp only [List.map_cons]
    by_cases hp : pk = k
    · rw [if_pos hp]
      rw [List.lookup_cons, List.lookup_cons]
      have hb : (k' == pk) = false := by
        simp only [beq_eq_false_iff_ne, ne_eq]
        rw [hp]
        exact h
      rw [hb]
      exact ih
    · rw [if_neg hp]
      rw [List.lookup_cons, List.lookup_cons]
      cases hb : (k' == pk) with
      | true => rfl
      | false => exact ih

theorem lookup_append_single_ne (m : List (String × Nat)) (k k' : String) (v : Nat)
    (h : ¬ k' = k) :
    (m ++ [(k, v)]).lookup k' = m.lookup k' := by
  induction m with
  | nil =>
    show List.lookup k' [(k, v)] = none
    rw [List.lookup_cons]
    rw [show (k' == k) = false from by
      simp only [beq_eq_false_iff_ne, ne_eq]
      exact h]
    rfl
  | cons p t ih =>
    rw [List.cons_append, List.lookup_cons, List.lookup_cons]
    cases hb : (k' == p.1) with
    | true => rfl
    | false => exact ih

/-- `Map.set` at a key leaves lookups of other keys unchanged. -/
theorem lookup_mapSet_ne (m : List (String × Nat)) (k k' : String) (v : Nat)
    (h : ¬ k' = k) :
    (mapSet m k v).lookup k' = m.lookup k' := by
  unfold mapSet
  by_cases hs : (m.lookup k).isSome
  · rw [if_pos hs]
    exact lookup_map_modify_ne m k k' v h
  · rw [if_neg hs]
    exact lookup_append_single_ne m k k' v h

/-- The `homepage` counter is never created: counters are only bumped for
pages of level ≥ 2, which never classify as `homepage`. -/
theorem handlePageCrawl_nohome (job : CrawlJobRec) (i : PageInput) (st : CrawlState)
    (h : st.postTypeCounters.lookup "homepage" = none) :
    (handlePageCrawl job i st).postTypeCounters.lookup "homepage" = none := by
  unfold handlePageCrawl
  by_cases h1 : shouldSkipPage (normalizeUrl i.url job.ignoreUrlParameters)
      st.crawledUrls st.pageCount job.maxPages = true
  · rw [if_pos h1]
    exact h
  · rw [if_neg h1]
    by_cases h2 : (job.sampledCrawl && shouldSkipForSampledCrawl
        (normalizeUrl i.url job.ignoreUrlParameters) st.postTypeCounters) = true
    · rw [if_pos h2]
      exact h
    · rw [if_neg h2]
      dsimp only
      by_cases h3 : job.sampledCrawl = true
      · rw [if_pos h3]
        by_cases h4 : getUrlLevel (normalizeUrl i.url job.ignoreUrlParameters) > 1
        · rw [if_pos h4]
          dsimp only
          rw [lookup_mapSet_ne _ _ _ _ ?_]
          · exact h
          · intro hcon
            exact detectPostType_ne_homepage _ (some ⟨i.title⟩) h4 hcon.symm
        · rw [if_neg h4]
          exact h
      · rw [if_neg h3]
        exact h

theorem runCrawl_nohome (job : CrawlJobRec) (inputs : List PageInput) :
    (runCrawl job inputs).postTypeCounters.lookup "homepage" = none := by
  have main : ∀ (l : List PageInput) (st : CrawlState),
      st.postTypeCounters.lookup "homepage" = none →
      (l.foldl (fun st i => handlePageCrawl job i st) st).postTypeCounters.lookup
        "homepage" = none := by
    intro l
    induction l with
    | nil => intro st h; exact h
    | cons i rest ih =>
      intro st h
      simp only [List.foldl_cons]
      exact ih _ (handlePageCrawl_nohome job i st h)
  exact main inputs initialCrawlState rfl

/-- Every URL of level ≤ 1 classifies as `homepage` or fails to have
level ≥ 2; concretely, level 0 means a slash-only pathname. -/
theorem getUrlLevel_zero_cases (url : String) (h : getUrlLevel url = 0) :
    ∃ u, parseURLChars url.data = some u ∧ allSlash u.pathname ∧
      (pathSegments u.pathname).length = 0 := by
  unfold getUrlLevel at h
  cases hp : parseURLChars url.data with
  | none =>
    rw [hp] at h
    exact absurd h (by decide)
  | some u =>
    rw [hp] at h
    dsimp only at h
    refine ⟨u, rfl, ?_⟩
    by_cases hroot : u.pathname = ['/'] ∨ u.pathname = []
    · rcases hroot with hr | hr <;> rw [hr]
      · exact ⟨by intro c hc; simpa using hc, by decide⟩
      · exact ⟨by intro c hc; simp at hc, by decide⟩
    · rw [if_neg hroot] at h
      exact ⟨allSlash_of_segments_nil _ h, h⟩

/-! ## crawlProcessor.js — `isValidInternalUrl` (lines 942-985) and
`enqueueInternalLinks` (lines 879-908) -/

/-- `hostname.replace(/^www\./, '')`. -/
def stripWww (h : List Char) : List Char :=
  if ("www.").data.isPrefixOf h then h.drop 4 else h

/-- `urlObj.hostname`: the host without userinfo and port.  (The source
reads `URL.prototype.hostname`; the model extracts it from the stored
host component.) -/
def hostnameOf (u : URLRec) : List Char :=
  let afterUser :=
    if u.host.contains '@' then (u.host.reverse.takeWhile (fun c => !(c == '@'))).reverse
    else u.host
  afterUser.takeWhile (fun c => !(c == ':'))

def fileExtensions : List String :=
  ["pdf", "jpg", "jpeg", "png", "gif", "css", "js", "ico", "svg", "woff",
   "woff2", "ttf", "eot", "zip", "rar", "exe", "dmg"]

/-- `url.match(/\.(pdf|jpg|...)$/i)`: the URL ends with a dot and one of
the listed extensions, case-insensitively. -/
def hasSkippedExtension (url : String) : Bool :=
  fileExtensions.any (fun e => (("." ++ e).data).isSuffixOf (jsToLower url).data)

/-- `isValidInternalUrl(url, jobUrl, domainTracker)`.  The tracker's
domain set is passed as a value (`none` models a null tracker); the
source's in-place additions to the tracker set are not modelled — they do
not affect the returned decision. -/
def isValidInternalUrl (url jobUrl : String)
    (trackerDomains : Option (List (List Char))) : Bool :=
  match parseURLChars url.data, parseURLChars jobUrl.data with
  | some u, some j =>
    let hv1 :=
      match trackerDomains with
      | some ds =>
        if ds.length > 0 then ds.contains (hostnameOf u)
        else hostnameOf u == hostnameOf j
      | none => hostnameOf u == hostnameOf j
    let hv2 := if hv1 then hv1 else stripWww (hostnameOf u) == stripWww (hostnameOf j)
    if !hv2 then false
    else if hasSkippedExtension url then false
    else u.scheme == ("http").data || u.scheme == ("https").data
  | _, _ => false

/-- One extracted anchor; `enqueueInternalLinks` reads only `href`. -/
structure LinkData where
  href : String
  deriving Repr

/-- The sampled-crawl pre-filter applied to candidate URLs at enqueue
time (the `urls.filter` body inside `enqueueInternalLinks`). -/
def sampledEnqueueFilter (postTypeCounters : List (String × Nat)) (url : String) :
    Bool :=
  let urlLevel := getUrlLevel url
  if urlLevel = 1 then true
  else
    let postType := detectPostType url
    let currentCount := (postTypeCounters.lookup postType).getD 0
    decide (currentCount < 3)

/-- `enqueueInternalLinks`: normalize, drop already-seen and non-internal
URLs, and for sampled crawls drop URLs whose category quota is already
full.  Returns the list handed to `enqueueLinks`. -/
def enqueueInternalLinks (job : CrawlJobRec) (internalLinks : List LinkData)
    (crawledUrls : List String) (postTypeCounters : List (String × Nat))
    (trackerDomains : Option (List (List Char))) : List String :=
  let urls := (internalLinks.map (fun l => normalizeUrl l.href job.ignoreUrlParameters)).filter
    (fun u => !crawledUrls.contains u && isValidInternalUrl u job.url trackerDomains)
  if job.sampledCrawl then urls.filter (sampledEnqueueFilter postTypeCounters) else urls

/-- C7: under the sampled-crawl policy, URLs of level ≤ 1 are always
admitted — by the process-time gate and by the enqueue-time pre-filter —
in every state reachable from a fresh job; URLs of level ≥ 2 are admitted
exactly while their category counter is below 3; enqueued URLs passed the
pre-filter; and a counter is bumped only when a level ≥ 2 page is
actually processed (enqueueing alone never touches the counters). -/
theorem sampledCrawl_admission (job : CrawlJobRec) (inputs : List PageInput) :
    (∀ url, getUrlLevel url ≤ 1 →
      shouldSkipForSampledCrawl url (runCrawl job inputs).postTypeCounters = false) ∧
    (∀ (counters : List (String × Nat)) (url : String), 2 ≤ getUrlLevel url →
      (shouldSkipForSampledCrawl url counters = false ↔
        (counters.lookup (detectPostType url)).getD 0 < 3)) ∧
    (∀ url, getUrlLevel url ≤ 1 →
      sampledEnqueueFilter (runCrawl job inputs).postTypeCounters url = true) ∧
    (∀ (counters : List (String × Nat)) (url : String), 2 ≤ getUrlLevel url →
      (sampledEnqueueFilter counters url = true ↔
        (counters.lookup (detectPostType url)).getD 0 < 3)) ∧
    (job.sampledCrawl = true → ∀ (links : List LinkData) (crawledUrls : List String)
      (counters : List (String × Nat)) (tracker : Option (List (List Char)))
      (url : String), url ∈ enqueueInternalLinks job links crawledUrls counters tracker →
      sampledEnqueueFilter counters url = true) ∧
    (∀ (st : CrawlState) (i : PageInput),
      (handlePageCrawl job i st).postTypeCounters = st.postTypeCounters ∨
      (job.sampledCrawl = true ∧
        shouldSkipPage (normalizeUrl i.url job.ignoreUrlParameters) st.crawledUrls
          st.pageCount job.maxPages = false ∧
        shouldSkipForSampledCrawl (normalizeUrl i.url job.ignoreUrlParameters)
          st.postTypeCounters = false ∧
        1 < getUrlLevel (normalizeUrl i.url job.ignoreUrlParameters) ∧
        (handlePageCrawl job i st).postTypeCounters
          = mapSet st.postTypeCounters
              (detectPostType (normalizeUrl i.url job.ignoreUrlParameters)
                (some ⟨i.title⟩))
              ((st.postTypeCounters.lookup (detectPostType
                  (normalizeUrl i.url job.ignoreUrlParameters)
                  (some ⟨i.title⟩))).getD 0 + 1))) := by
  refine ⟨?_, ?_, ?_, ?_, ?_, ?_⟩
  · intro url hl
    unfold shouldSkipForSampledCrawl
    by_cases hl1 : getUrlLevel url = 1
    · rw [if_pos hl1]
    · rw [if_neg hl1]
      have hl0 : getUrlLevel url = 0 := by omega
      obtain ⟨u, hp, hs, hseg⟩ := getUrlLevel_zero_cases url hl0
      dsimp only
      rw [detectPostType_homepage_of_allSlash url u hp hs hseg]
      rw [runCrawl_nohome job inputs]
      rfl
  · intro counters url hl
    unfold shouldSkipForSampledCrawl
    rw [if_neg (by omega)]
    dsimp only
    simp only [decide_eq_false_iff_not]
    omega
  · intro url hl
    unfold sampledEnqueueFilter
    by_cases hl1 : getUrlLevel url = 1
    · rw [if_pos hl1]
    · rw [if_neg hl1]
      have hl0 : getUrlLevel url = 0 := by omega
      obtain ⟨u, hp, hs, hseg⟩ := getUrlLevel_zero_cases url hl0
      dsimp only
      rw [detectPostType_homepage_of_allSlash url u hp hs hseg]
      rw [runCrawl_nohome job inputs]
      rfl
  · intro counters url hl
    unfold sampledEnqueueFilter
    rw [if_neg (by omega)]
    dsimp only
    simp only [decide_eq_true_eq]
  · intro hsampled links crawledUrls counters tracker url hmem
    unfold enqueueInternalLinks at hmem
    rw [if_pos hsampled] at hmem
    exact (List.mem_filter.mp hmem).2
  · intro st i
    unfold handlePageCrawl
    by_cases h1 : shouldSkipPage (normalizeUrl i.url job.ignoreUrlParameters)
        st.crawledUrls st.pageCount job.maxPages = true
    · rw [if_pos h1]
      exact Or.inl rfl
    · rw [if_neg h1]
      by_cases h2 : (job.sampledCrawl && shouldSkipForSampledCrawl
          (normalizeUrl i.url job.ignoreUrlParameters) st.postTypeCounters) = true
      · rw [if_pos h2]
        exact Or.inl rfl
      · rw [if_neg h2]
        dsimp only
        by_cases h3 : job.sampledCrawl = true
        · rw [if_pos h3]
          by_cases h4 : getUrlLevel (normalizeUrl i.url job.ignoreUrlParameters) > 1
          · rw [if_pos h4]
            right
            refine ⟨h3, by rw [Bool.not_eq_true] at h1; exact h1, ?_, h4, rfl⟩
            rw [Bool.and_eq_true] at h2
            push_neg at h2
            have := h2 h3
            exact Bool.not_eq_true _ ▸ (Bool.eq_false_iff.mpr this)
          · rw [if_neg h4]
            exact Or.inl rfl
        · rw [if_neg h3]
          exact Or.inl rfl

/-- C7 witness: a level-1 URL passes the process-time gate, the level-2
gate tracks the quota, and a level-0 URL passes the enqueue pre-filter,
all on a fresh sampled job. -/
theorem sampledCrawl_admission_witness :
    shouldSkipForSampledCrawl "https://e.com/about"
      (runCrawl ⟨"https://e.com", 10, true, false⟩ []).postTypeCounters = false ∧
    (shouldSkipForSampledCrawl "https://e.com/x/y" [("content", 3)] = false ↔
      ((([("content", 3)] : List (String × Nat)).lookup
        (detectPostType "https://e.com/x/y")).getD 0 < 3)) ∧
    sampledEnqueueFilter
      (runCrawl ⟨"https://e.com", 10, true, false⟩ []).postTypeCounters
      "https://e.com" = true :=
  ⟨(sampledCrawl_admission ⟨"https://e.com", 10, true, false⟩ []).1
      "https://e.com/about" (by decide),
   (sampledCrawl_admission ⟨"https://e.com", 10, true, false⟩ []).2.1
      [("content", 3)] "https://e.com/x/y" (by decide),
   (sampledCrawl_admission ⟨"https://e.com", 10, true, false⟩ []).2.2.1
      "https://e.com" (by decide)⟩

/-! ## crawlProcessor.js — finalize-phase link metrics (lines 676-722,
1141-1143).  `Math.log` is `Real.log`; JavaScript numbers are modelled
as real numbers. -/

/-- One persisted `Inlink` edge row (the fields the metrics read). -/
structure Edge where
  fromAddress : String
  toAddress : String
  type : String
  deriving DecidableEq, Repr

/-- One `InternalLink` (page) row with its included edge relations and the
aggregate columns the finalize phase writes. -/
structure LinkRow where
  address : String
  incomingLinks : List Edge
  outgoingLinks : List Edge
  inlinks : Nat := 0
  uniqueInlinks : Nat := 0
  outlinks : Nat := 0
  uniqueOutlinks : Nat := 0
  externalOutlinks : Nat := 0
  uniqueExternalOutlinks : Nat := 0
  linkScore : ℝ := 0
  percentOfTotal : ℝ := 0

/-- `calculateLinkScore(inlinks, outlinks)`; JavaScript numbers are
doubles, modelled as real numbers. -/
noncomputable def calculateLinkScore (inlinks outlinks : ℝ) : ℝ :=
  Real.log (inlinks + 1) * 0.8 + Real.log (outlinks + 1) * 0.2

/-- The update object `calculateLinkMetrics` returns. -/
structure LinkMetrics where
  inlinks : Nat
  uniqueInlinks : Nat
  outlinks : Nat
  uniqueOutlinks : Nat
  externalOutlinks : Nat
  uniqueExternalOutlinks : Nat
  linkScore : ℝ
  percentOfTotal : ℝ

/-- `calculateLinkMetrics(link, totalPages)`; `new Set(xs).size` is the
number of distinct elements, `xs.dedup.length`. -/
noncomputable def calculateLinkMetrics (link : LinkRow) (totalPages : Nat) : LinkMetrics :=
  let inlinks := link.incomingLinks.length
  let uniqueInlinks := (link.incomingLinks.map (fun l => l.fromAddress)).dedup.length
  let outlinks := link.outgoingLinks.length
  let uniqueOutlinks := (link.outgoingLinks.map (fun l => l.toAddress)).dedup.length
  let externalOutlinks := (link.outgoingLinks.filter (fun l => l.type = "external")).length
  let uniqueExternalOutlinks :=
    ((link.outgoingLinks.filter (fun l => l.type = "external")).map
      (fun l => l.toAddress)).dedup.length
  { inlinks := inlinks, uniqueInlinks := uniqueInlinks, outlinks := outlinks,
    uniqueOutlinks := uniqueOutlinks, externalOutlinks := externalOutlinks,
    uniqueExternalOutlinks := uniqueExternalOutlinks,
    linkScore := calculateLinkScore inlinks outlinks,
    percentOfTotal := if totalPages > 0 then (inlinks : ℝ) / totalPages * 100 else 0 }

/-- `prisma.internalLink.update({ data: linkMetrics })`. -/
noncomputable def applyMetrics (link : LinkRow) (m : LinkMetrics) : LinkRow :=
  { link with
      inlinks := m.inlinks, uniqueInlinks := m.uniqueInlinks,
      outlinks := m.outlinks, uniqueOutlinks := m.uniqueOutlinks,
      externalOutlinks := m.externalOutlinks,
      uniqueExternalOutlinks := m.uniqueExternalOutlinks,
      linkScore := m.linkScore, percentOfTotal := m.percentOfTotal }

/-- The internal-link half of `calculateLinkScoresAndRelationships`:
update every page row of the job from its own edge lists, with
`totalPages` the number of page rows. -/
noncomputable def calculateLinkScoresAndRelationships (internalLinks : List LinkRow) : List LinkRow :=
  internalLinks.map (fun link => applyMetrics link
    (calculateLinkMetrics link internalLinks.length))

/-- C2: after finalize every page row's stored `linkScore` is
`ln(inlinks+1)*0.8 + ln(outlinks+1)*0.2` where the stored `inlinks` and
`outlinks` are exactly its persisted edge counts, and `percentOfTotal` is
`inlinks / totalPages * 100` (0 when the job has no pages). -/
theorem linkScore_finalize (rows : List LinkRow) (r : LinkRow)
    (hr : r ∈ calculateLinkScoresAndRelationships rows) :
    r.inlinks = r.incomingLinks.length ∧
    r.outlinks = r.outgoingLinks.length ∧
    r.linkScore = Real.log ((r.incomingLinks.length : ℝ) + 1) * 0.8 +
      Real.log ((r.outgoingLinks.length : ℝ) + 1) * 0.2 ∧
    r.linkScore = Real.log ((r.inlinks : ℝ) + 1) * 0.8 +
      Real.log ((r.outlinks : ℝ) + 1) * 0.2 ∧
    r.percentOfTotal = (if 0 < rows.length then
      (r.incomingLinks.length : ℝ) / rows.length * 100 else 0) := by
  obtain ⟨l, hl, rfl⟩ := List.mem_map.mp hr
  exact ⟨rfl, rfl, rfl, rfl, rfl⟩

/-- A page row with one inbound edge and no outbound edges. -/
def exampleLinkRow : LinkRow :=
  { address := "https://e.com/",
    incomingLinks := [⟨"https://e.com/a", "https://e.com/", "internal"⟩],
    outgoingLinks := [] }

/-- C2 witness: the finalize computation on a one-page job. -/
theorem linkScore_finalize_witness :
    (applyMetrics exampleLinkRow (calculateLinkMetrics exampleLinkRow 1)) ∈
      calculateLinkScoresAndRelationships [exampleLinkRow] ∧
    (applyMetrics exampleLinkRow (calculateLinkMetrics exampleLinkRow 1)).linkScore
      = Real.log ((exampleLinkRow.incomingLinks.length : ℝ) + 1) * 0.8 +
        Real.log ((exampleLinkRow.outgoingLinks.length : ℝ) + 1) * 0.2 := by
  have hmem : (applyMetrics exampleLinkRow (calculateLinkMetrics exampleLinkRow 1)) ∈
      calculateLinkScoresAndRelationships [exampleLinkRow] :=
    List.mem_singleton.mpr rfl
  exact ⟨hmem, (linkScore_finalize [exampleLinkRow] _ hmem).2.2.1⟩

/-! ## sitemapCrawler.js — sitemap discovery (dedup set and cap of 50).
The network is an oracle `net : String → SitemapReply` giving, per URL,
the fetch outcome with its already-parsed XML (`parseSitemapXML` is pure
string processing whose output is exactly a `ParsedSitemap`).  The
recursion of `processChildSitemaps` is run on explicit fuel, decremented
on every step so the definition is structural; every theorem below is
proved for every fuel value, so nothing depends on the fuel chosen. -/

/-- Output of `parseSitemapXML` (the fields the discovery loop reads). -/
structure ParsedSitemap where
  urlCount : Nat
  urls : List String
  childSitemapUrls : List String
  deriving DecidableEq, Repr

/-- Outcome of one sitemap fetch. -/
inductive SitemapReply where
  | response (status : Nat) (body : String) (parsed : ParsedSitemap)
  | failure (msg : String)
  deriving DecidableEq, Repr

/-- One sitemap data object as built by `fetchAndParseSitemap`
(`responseTime` and the `statusText` part of the error message are not
modelled; `parentSitemapId` keeps the `parentId` argument). -/
structure SitemapData where
  url : String
  parentSitemapId : Option Nat
  content : Option String
  statusCode : Option Nat
  urlCount : Nat
  urls : List String
  childSitemapUrls : List String
  discoveredFrom : String
  error : Option String
  deriving DecidableEq, Repr

/-- The crawler's per-run mutable state: `this.processedSitemaps`, the
`allSitemaps` array, and (for specification only) the list of URLs that
were actually fetched from the network, in order. -/
structure SiteState where
  processedSitemaps : List String
  allSitemaps : List SitemapData
  fetchLog : List String
  deriving DecidableEq, Repr

/-- `this.maxSitemaps`. -/
def maxSitemaps : Nat := 50

/-- `fetchAndParseSitemap(sitemapUrl, parentId, discoveredFrom)`:
skip (return null) if already processed, else mark processed, perform the
fetch and build the data object.  Both the non-2xx branch and the catch
branch return an object with empty url lists. -/
def fetchAndParseSitemap (net : String → SitemapReply) (st : SiteState)
    (sitemapUrl : String) (parentId : Option Nat) (discoveredFrom : String) :
    SiteState × Option SitemapData :=
  if sitemapUrl ∈ st.processedSitemaps then (st, none)
  else
    let st1 : SiteState :=
      { st with processedSitemaps := sitemapUrl :: st.processedSitemaps,
                fetchLog := st.fetchLog ++ [sitemapUrl] }
    let data : SitemapData :=
      match net sitemapUrl with
      | .response status body parsed =>
        if statusOk status then
          { url := sitemapUrl, parentSitemapId := parentId, content := some body,
            statusCode := some status, urlCount := parsed.urlCount,
            urls := parsed.urls, childSitemapUrls := parsed.childSitemapUrls,
            discoveredFrom := discoveredFrom, error := none }
        else
          { url := sitemapUrl, parentSitemapId := parentId, content := none,
            statusCode := some status, urlCount := 0, urls := [],
            childSitemapUrls := [], discoveredFrom := discoveredFrom,
            error := some ("HTTP " ++ toString status) }
      | .failure msg =>
        { url := sitemapUrl, parentSitemapId := parentId, content := none,
          statusCode := none, urlCount := 0, urls := [], childSitemapUrls := [],
          discoveredFrom := discoveredFrom, error := some msg }
    (st1, some data)

/-- `processChildSitemaps(parentSitemap, allSitemaps)`, iterating the
parent's child URL list; `fuel` bounds the recursion depth (the cap makes
any run with enough fuel identical to the JavaScript recursion). -/
def processChildSitemaps (net : String → SitemapReply) :
    Nat → List String → SiteState → SiteState
  | 0, _, st => st
  | _ + 1, [], st => st
  | fuel + 1, childUrl :: rest, st =>
    if maxSitemaps ≤ st.allSitemaps.length then st
    else
      match fetchAndParseSitemap net st childUrl none "sitemap-index" with
      | (st1, none) => processChildSitemaps net fuel rest st1
      | (st1, some childSitemap) =>
        let st2 : SiteState :=
          { st1 with allSitemaps := st1.allSitemaps ++ [childSitemap] }
        let st3 : SiteState :=
          if 0 < childSitemap.childSitemapUrls.length then
            processChildSitemaps net fuel childSitemap.childSitemapUrls st2
          else st2
        processChildSitemaps net fuel rest st3

/-- The `for (const url of sitemapUrls)` loop of
`discoverAndCrawlSitemaps`. -/
def discoverLoop (net : String → SitemapReply) :
    Nat → List String → SiteState → SiteState
  | 0, _, st => st
  | _ + 1, [], st => st
  | fuel + 1, url :: rest, st =>
    if maxSitemaps ≤ st.allSitemaps.length then st
    else
      match fetchAndParseSitemap net st url none "initial-discovery" with
      | (st1, none) => discoverLoop net fuel rest st1
      | (st1, some sitemapData) =>
        let st2 : SiteState :=
          { st1 with allSitemaps := st1.allSitemaps ++ [sitemapData] }
        let st3 : SiteState :=
          if 0 < sitemapData.childSitemapUrls.length then
            processChildSitemaps net fuel sitemapData.childSitemapUrls st2
          else st2
        discoverLoop net fuel rest st3

/-- `Set` insertion order with deduplication: add a URL to the end unless
it is already present. -/
def addIfNew (acc : List String) (u : String) : List String :=
  if u ∈ acc then acc else acc ++ [u]

/-- `discoverAndCrawlSitemaps(baseUrl, robotsSitemapUrls)`: seed the URL
set from robots.txt, fall back to the four common locations (which needs
`new URL(baseUrl)`, hence can throw), then run the discovery loop from a
cleared state. -/
def discoverAndCrawlSitemaps (net : String → SitemapReply) (baseUrl : String)
    (robotsSitemapUrls : List String) (fuel : Nat) : Except String SiteState :=
  let seeds := robotsSitemapUrls.foldl addIfNew []
  if seeds.isEmpty then
    match parseURL baseUrl with
    | none => .error "Invalid URL"
    | some b =>
      let origin := String.mk b.scheme ++ "://" ++ String.mk b.host
      .ok (discoverLoop net fuel
        [origin ++ "/sitemap.xml", origin ++ "/sitemap_index.xml",
         origin ++ "/sitemaps.xml", origin ++ "/sitemap1.xml"]
        ⟨[], [], []⟩)
  else .ok (discoverLoop net fuel seeds ⟨[], [], []⟩)

/-- Run invariant: no URL fetched twice, every fetched URL marked
processed, and the collected sitemap count within the cap. -/
def SiteInv (st : SiteState) : Prop :=
  st.fetchLog.Nodup ∧ (∀ u ∈ st.fetchLog, u ∈ st.processedSitemaps) ∧
  st.allSitemaps.length ≤ maxSitemaps

theorem fetchAndParseSitemap_inv (net : String → SitemapReply) (st : SiteState)
    (url : String) (pid : Option Nat) (df : String) (h : SiteInv st) :
    SiteInv (fetchAndParseSitemap net st url pid df).1 ∧
    (fetchAndParseSitemap net st url pid df).1.allSitemaps = st.allSitemaps := by
  by_cases hmem : url ∈ st.processedSitemaps
  · unfold fetchAndParseSitemap
    rw [if_pos hmem]
    exact ⟨h, rfl⟩
  · unfold fetchAndParseSitemap
    rw [if_neg hmem]
    refine ⟨⟨?_, ?_, h.2.2⟩, rfl⟩
    · refine List.Nodup.append h.1 (List.nodup_singleton url) ?_
      intro a ha hb
      rw [List.mem_singleton] at hb
      subst hb
      exact hmem (h.2.1 a ha)
    · intro u hu
      rw [List.mem_append] at hu
      rcases hu with hu | hu
      · exact List.mem_cons_of_mem _ (h.2.1 u hu)
      · rw [List.mem_singleton] at hu
        subst hu
        exact List.mem_cons_self _ _

theorem processChildSitemaps_inv (net : String → SitemapReply) :
    ∀ (fuel : Nat) (children : List String) (st : SiteState),
      SiteInv st → SiteInv (processChildSitemaps net fuel children st) := by
  intro fuel
  induction fuel with
  | zero =>
    intro children st h
    cases children <;> exact h
  | succ fuel ih =>
    intro children st h
    cases children with
    | nil => exact h
    | cons c rest =>
      rw [processChildSitemaps]
      by_cases hcap : maxSitemaps ≤ st.allSitemaps.length
      · rw [if_pos hcap]; exact h
      · rw [if_neg hcap]
        obtain ⟨h1, hall⟩ := fetchAndParseSitemap_inv net st c none "sitemap-index" h
        rcases hfetch : fetchAndParseSitemap net st c none "sitemap-index" with ⟨st1, odata⟩
        rw [hfetch] at h1 hall
        cases odata with
        | none =>
          dsimp only
          exact ih rest st1 h1
        | some child =>
          dsimp only
          dsimp only at h1 hall
          have h2 : SiteInv { st1 with allSitemaps := st1.allSitemaps ++ [child] } := by
            refine ⟨h1.1, h1.2.1, ?_⟩
            dsimp only
            rw [List.length_append, hall]
            exact Nat.succ_le_of_lt (Nat.lt_of_not_le hcap)
          by_cases hch : 0 < child.childSitemapUrls.length
          · rw [if_pos hch]
            exact ih rest _ (ih child.childSitemapUrls _ h2)
          · rw [if_neg hch]
            exact ih rest _ h2

theorem discoverLoop_inv (net : String → SitemapReply) :
    ∀ (fuel : Nat) (urls : List String) (st : SiteState),
      SiteInv st → SiteInv (discoverLoop net fuel urls st) := by
  intro fuel
  induction fuel with
  | zero =>
    intro urls st h
    cases urls <;> exact h
  | succ fuel ih =>
    intro urls st h
    cases urls with
    | nil => exact h
    | cons c rest =>
      rw [discoverLoop]
      by_cases hcap : maxSitemaps ≤ st.allSitemaps.length
      · rw [if_pos hcap]; exact h
      · rw [if_neg hcap]
        obtain ⟨h1, hall⟩ := fetchAndParseSitemap_inv net st c none "initial-discovery" h
        rcases hfetch : fetchAndParseSitemap net st c none "initial-discovery" with ⟨st1, odata⟩
        rw [hfetch] at h1 hall
        cases odata with
        | none =>
          dsimp only
          exact ih rest st1 h1
        | some sd =>
          dsimp only
          dsimp only at h1 hall
          have h2 : SiteInv { st1 with allSitemaps := st1.allSitemaps ++ [sd] } := by
            refine ⟨h1.1, h1.2.1, ?_⟩
            dsimp only
            rw [List.length_append, hall]
            exact Nat.succ_le_of_lt (Nat.lt_of_not_le hcap)
          by_cases hch : 0 < sd.childSitemapUrls.length
          · rw [if_pos hch]
            exact ih rest _ (processChildSitemaps_inv net fuel sd.childSitemapUrls _ h2)
          · rw [if_neg hch]
            exact ih rest _ h2

/-- A two-sitemap index cycle: sitemap a lists b as child, b lists a. -/
def cyclicNet (u : String) : SitemapReply :=
  if u = "http://e.com/a.xml" then
    .response 200 "<sitemapindex>" ⟨0, [], ["http://e.com/b.xml"]⟩
  else if u = "http://e.com/b.xml" then
    .response 200 "<sitemapindex>" ⟨0, [], ["http://e.com/a.xml"]⟩
  else .failure "timeout"

/-- C6: within one discovery run no sitemap URL is ever fetched twice
(the fetch log is duplicate-free) and at most 50 sitemap results are
collected, for every network, base URL, robots seed list and fuel; and on
the concrete cyclic index (a references b, b references a) the run
fetches exactly a then b, once each. -/
theorem sitemapDiscovery_dedup_cap :
    (∀ (net : String → SitemapReply) (baseUrl : String)
      (robotsSitemapUrls : List String) (fuel : Nat),
      match discoverAndCrawlSitemaps net baseUrl robotsSitemapUrls fuel with
      | .error _ => True
      | .ok st => st.fetchLog.Nodup ∧ st.allSitemaps.length ≤ maxSitemaps) ∧
    ((discoverAndCrawlSitemaps cyclicNet "http://e.com"
        ["http://e.com/a.xml"] 10).map
        (fun st => (st.fetchLog, st.allSitemaps.map (fun d => d.url))) =
      .ok (["http://e.com/a.xml", "http://e.com/b.xml"],
           ["http://e.com/a.xml", "http://e.com/b.xml"])) := by
  constructor
  · intro net baseUrl robotsSitemapUrls fuel
    have hinv : SiteInv ⟨[], [], []⟩ := by
      refine ⟨List.nodup_nil, ?_, ?_⟩
      · intro u hu
        cases hu
      · show 0 ≤ maxSitemaps
        exact Nat.zero_le _
    unfold discoverAndCrawlSitemaps
    dsimp only
    by_cases hseeds : (List.foldl addIfNew [] robotsSitemapUrls).isEmpty
    · rw [if_pos hseeds]
      cases hp : parseURL baseUrl with
      | none =>
        dsimp only
      | some b =>
        dsimp only
        have hres := discoverLoop_inv net fuel
          [String.mk b.scheme ++ "://" ++ String.mk b.host ++ "/sitemap.xml",
           String.mk b.scheme ++ "://" ++ String.mk b.host ++ "/sitemap_index.xml",
           String.mk b.scheme ++ "://" ++ String.mk b.host ++ "/sitemaps.xml",
           String.mk b.scheme ++ "://" ++ String.mk b.host ++ "/sitemap1.xml"]
          ⟨[], [], []⟩ hinv
        exact ⟨hres.1, hres.2.2⟩
    · rw [if_neg hseeds]
      have hres := discoverLoop_inv net fuel
        (List.foldl addIfNew [] robotsSitemapUrls) ⟨[], [], []⟩ hinv
      exact ⟨hres.1, hres.2.2⟩
  · rfl

end SiteScope
